import Mathlib

/-!
# Yarn install buildpack: embedding of `install_process.go` and `detect.go`

The Go code talks to the operating system (files, environment, temporary
files), to `encoding/json`, to the external `yarn` executable and to a
checksum calculator.  The embedding makes that state explicit:

* `World` holds the file system (a finite map from keys, the lists of names
  that lead from the root to an entry, to nodes), the working directory, the
  process environment, the open file handles and the answers the operating
  system gives for reasons the map does not decide (permissions, full
  disk, ...).  Path strings are resolved to keys the way the kernel does it.
* The `yarn` executable and the checksum calculator are the two interface
  fields of `YarnInstallProcess`, exactly as in the Go struct.
* Go strings are Lean strings; every helper is written by structural
  recursion over the list of characters.
-/

set_option autoImplicit false

namespace YarnInstall

/-! ## Go string helpers (`strings` package) -/

/-- Go `strings.HasPrefix`. -/
def HasPrefix (s pre : String) : Bool :=
  pre.data.isPrefixOf s.data

/-- Go `strings.TrimPrefix`. -/
def TrimPrefix (s pre : String) : String :=
  if HasPrefix s pre then ⟨s.data.drop pre.data.length⟩ else s

/-- Go `strings.IndexAny`: the index of the first character of `s` that occurs in
`chars`, counted in characters, `none` standing for `-1`. -/
def IndexAny (s chars : String) : Option Nat :=
  let i := (s.data.takeWhile fun c => !chars.data.contains c).length
  if i < s.data.length then some i else none

/-- Go slice expression `s[:idx]`.  The index counts characters here and bytes
in Go; the code slices only where the two agree: at the end of the ASCII
prefix `yarn@` and at an index found by `IndexAny`, which counts the same
way. -/
def sliceTo (s : String) (idx : Nat) : String :=
  ⟨s.data.take idx⟩

/-- Go slice expression `s[idx:]`, with the index as in `sliceTo`. -/
def sliceFrom (s : String) (idx : Nat) : String :=
  ⟨s.data.drop idx⟩

/-- Go `len(s)`: the number of bytes of the UTF-8 encoding. -/
def len (s : String) : Nat :=
  (s.data.map Char.utf8Size).sum

/-- Lexicographic `<` on Go strings (bytewise on UTF-8, which is the order of
the code points). -/
def ltChars : List Char → List Char → Bool
  | _, [] => false
  | [], _ :: _ => true
  | a :: as, b :: bs =>
    if a.toNat < b.toNat then true
    else if b.toNat < a.toNat then false
    else ltChars as bs

/-- Go `a >= b` on strings. -/
def geString (a b : String) : Bool :=
  !ltChars a.data b.data

/-- Go `unicode.IsSpace`. -/
def isSpace (c : Char) : Bool :=
  let n := c.toNat
  n = 0x09 || n = 0x0A || n = 0x0B || n = 0x0C || n = 0x0D || n = 0x20 ||
  n = 0x85 || n = 0xA0 || n = 0x1680 || (0x2000 ≤ n && n ≤ 0x200A) ||
  n = 0x2028 || n = 0x2029 || n = 0x202F || n = 0x205F || n = 0x3000

/-- Go `strings.TrimSpace`. -/
def TrimSpace (s : String) : String :=
  ⟨((s.data.dropWhile isSpace).reverse.dropWhile isSpace).reverse⟩

/-- Splitting a character list at every occurrence of `sep`; the result is
never empty. -/
def splitChars (sep : Char) : List Char → List (List Char)
  | [] => [[]]
  | c :: cs =>
    if c = sep then [] :: splitChars sep cs
    else
      match splitChars sep cs with
      | [] => [[c]]
      | x :: xs => (c :: x) :: xs

/-- Go `strings.Split(s, "\n")`. -/
def SplitLines (s : String) : List String :=
  (splitChars '\n' s.data).map String.mk

/-- Go `strings.Join(elems, sep)`. -/
def JoinStrings (elems : List String) (sep : String) : String :=
  sep.intercalate elems

/-! ## `path/filepath` on Unix -/

/-- One step of `filepath.Clean` over the stack of components kept so far
(top first). -/
def cleanStep (rooted : Bool) (out : List (List Char)) (comp : List Char) :
    List (List Char) :=
  if comp = [] ∨ comp = ['.'] then out
  else if comp = ['.', '.'] then
    match out with
    | top :: rest => if top = ['.', '.'] then comp :: out else rest
    | [] => if rooted then [] else [comp]
  else comp :: out

/-- Go `filepath.Clean` (Unix). -/
def Clean (path : String) : String :=
  if path = "" then "."
  else
    let rooted := path.data.head? = some '/'
    let comps := (splitChars '/' path.data).foldl (cleanStep rooted) []
    let body := String.mk (List.intercalate ['/'] comps.reverse)
    let res := (if rooted then "/" else "") ++ body
    if res = "" then "." else res

/-- Go `filepath.Join` (Unix): empty leading elements are skipped, the rest is
joined with the separator and cleaned. -/
def Join (elem : List String) : String :=
  match elem.dropWhile (fun e => e = "") with
  | [] => ""
  | es => Clean (JoinStrings es "/")

/-! ## The operating system

The file system is a finite map from keys to nodes.  A key is the list of
names that leads from the root to an entry, with no `.`, no `..` and no
symlink on the way; the root is the empty key and is always a directory.  A
path string is resolved to a key component by component, the way the kernel
does it: symlinks are followed, `..` goes to the parent, a trailing slash
asks for a directory. -/

/-- Equality of Go `(value, error)` results can be decided. -/
instance decEqExcept {ε α : Type} [DecidableEq ε] [DecidableEq α] : DecidableEq (Except ε α)
  | .ok a, .ok b =>
    if h : a = b then isTrue (by rw [h]) else isFalse (fun h2 => h (Except.ok.inj h2))
  | .error a, .error b =>
    if h : a = b then isTrue (by rw [h]) else isFalse (fun h2 => h (Except.error.inj h2))
  | .ok _, .error _ => isFalse (fun h => Except.noConfusion h)
  | .error _, .ok _ => isFalse (fun h => Except.noConfusion h)

/-- The names from the root to an entry. -/
abbrev Key := List String

/-- What a key names. -/
inductive Node where
  | file (contents : String)
  | dir
  | symlink (target : String)
  deriving DecidableEq, Repr

/-- Errors of the `os` package, as far as the code tells them apart:
`os.ErrNotExist` against everything else. -/
inductive OsError where
  | notExist
  | other (errno : String)
  deriving DecidableEq, Repr

/-- The text of an error (`err.Error()`). -/
def OsError.text : OsError → String
  | .notExist => "no such file or directory"
  | .other e => e

/-- Go `os.IsNotExist(err)` and `errors.Is(err, os.ErrNotExist)`. -/
def OsError.isNotExist : OsError → Bool
  | .notExist => true
  | .other _ => false

/-- Go `FileInfo.IsDir`. -/
def Node.IsDir : Node → Bool
  | .dir => true
  | _ => false

/-- Go `info.Mode()&os.ModeSymlink == os.ModeSymlink`. -/
def Node.isSymlink : Node → Bool
  | .symlink _ => true
  | _ => false

/-- Answers of the operating system that the file-system map does not
decide: permissions and the like. -/
structure Faults where
  /-- Looking a name up in this directory is denied (`EACCES`). -/
  search : Key → Bool
  /-- Making a new entry at this key fails. -/
  create : Key → Bool
  /-- Writing to the file at this key fails. -/
  write : Key → Bool
  /-- Removing the entry at this key fails. -/
  remove : Key → Bool

/-- The state of the process and of the machine it runs on. -/
structure World where
  /-- The file system. -/
  fs : List (Key × Node)
  /-- The working directory of the process, where relative paths start. -/
  cwd : Key
  /-- The process environment, in the order of `os.Environ`. -/
  env : List (String × String)
  /-- The random suffix `os.CreateTemp` will draw. -/
  tempSuffix : String
  /-- Keys of the files this process holds open. -/
  handles : List Key
  faults : Faults

/-- Go `os.Getenv`: the empty string when the variable is not set. -/
def Getenv (w : World) (key : String) : String :=
  (w.env.lookup key).getD ""

/-- Go `os.Environ`: the entries as `key=value`. -/
def Environ (w : World) : List String :=
  w.env.map fun kv => kv.1 ++ "=" ++ kv.2

/-- The node at a key; the root is a directory. -/
def nodeAt (fs : List (Key × Node)) (k : Key) : Option Node :=
  if k = [] then some .dir else fs.lookup k

/-- The file system with the entry at `k` set to `n`. -/
def fsSet (fs : List (Key × Node)) (k : Key) (n : Node) : List (Key × Node) :=
  (k, n) :: fs.filter fun e => e.1 ≠ k

/-- The file system without the entry at `k`. -/
def fsDelete (fs : List (Key × Node)) (k : Key) : List (Key × Node) :=
  fs.filter fun e => e.1 ≠ k

/-- The file system without the entry at `k` and all below it. -/
def fsDeleteTree (fs : List (Key × Node)) (k : Key) : List (Key × Node) :=
  fs.filter fun e => !k.isPrefixOf e.1

/-- The world with another file system. -/
def World.withFs (w : World) (fs : List (Key × Node)) : World :=
  { w with fs := fs }

/-- Whether a path is absolute. -/
def isAbs (p : String) : Bool :=
  p.data.head? = some '/'

/-- The components the kernel walks for a path: empty ones are dropped, and a
trailing slash stands for a final `.`. -/
def pathComps (p : String) : List String :=
  let body := ((splitChars '/' p.data).map String.mk).filter fun s => s ≠ ""
  if p.data.getLast? = some '/' ∧ body ≠ [] then body ++ ["."] else body

/-- Where a walk over components stands when it stops. -/
inductive Step where
  /-- The path leads to this entry. -/
  | found (key : Key) (node : Node)
  /-- All but the last component lead to a directory, which has no entry
  for the last one; the key is where it would be. -/
  | missing (key : Key)
  /-- A symlink met in directory `dir` that has to be followed, and the
  components left after it. -/
  | link (dir : Key) (target : String) (rest : List String)
  | fail (e : OsError)
  deriving DecidableEq, Repr

/-- Walking components from the directory `cur` up to the first symlink that
has to be followed.  A symlink in last place is followed only when `follow`
is set. -/
def walkComps (fs : List (Key × Node)) (faults : Faults) (follow : Bool) :
    List String → Key → Step
  | [], cur => .found cur .dir
  | c :: rest, cur =>
    if faults.search cur then .fail (.other "permission denied")
    else if c = "." then walkComps fs faults follow rest cur
    else if c = ".." then walkComps fs faults follow rest cur.dropLast
    else
      match nodeAt fs (cur ++ [c]) with
      | none => if rest = [] then .missing (cur ++ [c]) else .fail .notExist
      | some .dir => walkComps fs faults follow rest (cur ++ [c])
      | some (.file x) =>
        if rest = [] then .found (cur ++ [c]) (.file x) else .fail (.other "not a directory")
      | some (.symlink t) =>
        if rest = [] ∧ follow = false then .found (cur ++ [c]) (.symlink t)
        else .link cur t rest

/-- Walking components with symlinks followed, at most `fuel` of them (then
the kernel gives up with `ELOOP`).  The result is never a `link`. -/
def walk (fs : List (Key × Node)) (faults : Faults) (follow : Bool) :
    Nat → Key → List String → Step
  | 0, cur, comps =>
    match walkComps fs faults follow comps cur with
    | .link _ _ _ => .fail (.other "too many levels of symbolic links")
    | s => s
  | fuel + 1, cur, comps =>
    match walkComps fs faults follow comps cur with
    | .link dir t rest =>
      if t = "" then .fail .notExist
      else walk fs faults follow fuel (if isAbs t then [] else dir) (pathComps t ++ rest)
    | s => s

/-- The number of symlinks the kernel follows in one lookup. -/
def maxSymlinks : Nat := 40

/-- Resolving a path string. -/
def lookupPath (w : World) (follow : Bool) (p : String) : Step :=
  if p = "" then .fail .notExist
  else walk w.fs w.faults follow maxSymlinks (if isAbs p then [] else w.cwd) (pathComps p)

/-- What a resolved path gives to a caller that wants the node. -/
def Step.toNode : Step → Except OsError Node
  | .found _ n => .ok n
  | .missing _ => .error .notExist
  | .link _ _ _ => .error (.other "too many levels of symbolic links")
  | .fail e => .error e

/-- Go `os.Lstat`: the node the path leads to, a symlink in last place not
followed. -/
def Lstat (w : World) (p : String) : Except OsError Node :=
  (lookupPath w false p).toNode

/-- Go `os.Stat`: the node the path leads to, all symlinks followed. -/
def Stat (w : World) (p : String) : Except OsError Node :=
  (lookupPath w true p).toNode

/-- Go `os.ReadFile`. -/
def ReadFile (w : World) (p : String) : Except OsError String :=
  match Stat w p with
  | .error e => .error e
  | .ok (.file c) => .ok c
  | .ok _ => .error (.other "is a directory")

/-- Whether a directory has an entry. -/
def hasChildren (fs : List (Key × Node)) (k : Key) : Bool :=
  fs.any fun e => e.1 ≠ [] ∧ e.1.dropLast = k

/-- Go `os.Remove`: unlinks a file or a symlink, removes an empty directory. -/
def Remove (w : World) (p : String) : Except OsError World :=
  match lookupPath w false p with
  | .found k n =>
    if k = [] then .error (.other "device or resource busy")
    else if w.faults.remove k then .error (.other "permission denied")
    else if n.IsDir ∧ hasChildren w.fs k then .error (.other "directory not empty")
    else .ok (w.withFs (fsDelete w.fs k))
  | s => (s.toNode).map fun _ => w

/-- The `endsWithDot` of package `os`. -/
def endsWithDot (p : String) : Bool :=
  match p.data.reverse with
  | ['.'] => true
  | '.' :: '/' :: _ => true
  | _ => false

/-- Go `os.RemoveAll`: removes the entry and, when it is a directory, all
that lies below it; a symlink is removed itself, not what it points to; a
path that leads nowhere is no error. -/
def RemoveAll (w : World) (p : String) : Except OsError World :=
  if p = "" then .ok w
  else if endsWithDot p then .error (.other "invalid argument")
  else
    match lookupPath w false p with
    | .found k n =>
      if k = [] then .error (.other "device or resource busy")
      else if w.faults.remove k then .error (.other "permission denied")
      else if n.IsDir then .ok (w.withFs (fsDeleteTree w.fs k))
      else .ok (w.withFs (fsDelete w.fs k))
    | .missing _ => .ok w
    | .link _ _ _ => .error (.other "too many levels of symbolic links")
    | .fail e => if e.isNotExist then .ok w else .error e

/-- Go `os.Mkdir`. -/
def Mkdir (w : World) (p : String) : Except OsError World :=
  match lookupPath w false p with
  | .found _ _ => .error (.other "file exists")
  | .missing k =>
    if w.faults.create k then .error (.other "permission denied")
    else .ok (w.withFs (fsSet w.fs k .dir))
  | .link _ _ _ => .error (.other "too many levels of symbolic links")
  | .fail e => .error e

/-- The parent `path[:i]` that `os.MkdirAll` recurses on: trailing separators
are dropped, then the last name. -/
def parentPath (p : String) : String :=
  ⟨(((p.data.reverse.dropWhile fun c => c = '/').dropWhile fun c => c ≠ '/').drop 1).reverse⟩

/-- Go `os.MkdirAll`, the recursion over the parents bounded by `fuel`. -/
def MkdirAllAux : Nat → World → String → Except OsError World
  | 0, _, _ => .error (.other "file name too long")
  | fuel + 1, w, p =>
    -- Fast path: the path leads somewhere already
    match Stat w p with
    | .ok n => if n.IsDir then .ok w else .error (.other "not a directory")
    | .error _ =>
      -- Slow path: make sure the parent exists, then Mkdir
      let parent := parentPath p
      let made : Except OsError World :=
        if parent ≠ "" then MkdirAllAux fuel w parent else .ok w
      match made with
      | .error e => .error e
      | .ok w1 =>
        match Mkdir w1 p with
        | .ok w2 => .ok w2
        | .error e =>
          match Lstat w1 p with
          | .ok n => if n.IsDir then .ok w1 else .error e
          | .error _ => .error e

/-- Go `os.MkdirAll`; every recursion is on a shorter path, so the length of
the path bounds them. -/
def MkdirAll (w : World) (p : String) : Except OsError World :=
  MkdirAllAux (p.data.length + 1) w p

/-- Go `os.TempDir` (Unix): `$TMPDIR`, or `/tmp` when that is empty. -/
def TempDir (w : World) : String :=
  if Getenv w "TMPDIR" = "" then "/tmp" else Getenv w "TMPDIR"

/-- The `joinPath` of package `os`: the separator is put in unless `dir` ends
with one already. -/
def joinPath (dir name : String) : String :=
  if dir.data.getLast? = some '/' then dir ++ name else dir ++ "/" ++ name

/-- The name `os.CreateTemp(dir, pattern)` picks: `dir` defaults to
`os.TempDir()`, the random suffix follows the pattern (which has no `*`). -/
def tempName (w : World) (dir pattern : String) : String :=
  let d := if dir = "" then TempDir w else dir
  joinPath d (pattern ++ w.tempSuffix)

/-- A Go `*os.File`: the name it was opened with and the entry it is. -/
structure File where
  Name : String
  key : Key
  deriving DecidableEq, Repr

/-- Go `os.CreateTemp`: a new empty file, opened exclusively (a name that is
taken is an error here; the library draws again). -/
def CreateTemp (w : World) (dir pattern : String) : Except OsError (File × World) :=
  let name := tempName w dir pattern
  match lookupPath w false name with
  | .found _ _ => .error (.other "file exists")
  | .missing k =>
    if w.faults.create k then .error (.other "permission denied")
    else
      .ok ({ Name := name, key := k },
           { w with fs := fsSet w.fs k (.file ""), handles := k :: w.handles })
  | .link _ _ _ => .error (.other "too many levels of symbolic links")
  | .fail e => .error e

/-- Go `file.Write`. -/
def Write (w : World) (file : File) (data : String) : Except OsError World :=
  if w.faults.write file.key then .error (.other "no space left on device")
  else
    match nodeAt w.fs file.key with
    | some (.file c) => .ok (w.withFs (fsSet w.fs file.key (.file (c ++ data))))
    | _ => .error (.other "bad file descriptor")

/-- Go `file.Close`. -/
def Close (w : World) (file : File) : World :=
  { w with handles := w.handles.erase file.key }

/-! ## The `fs.Copy` of packit -/

/-- Putting a name into a sorted list of names that has each name once. -/
def insertName (n : String) : List String → List String
  | [] => [n]
  | m :: ms =>
    if n = m then m :: ms
    else if ltChars n.data m.data then n :: m :: ms
    else m :: insertName n ms

/-- The names of the entries of a directory, sorted (`readDirNames`). -/
def childNames (fs : List (Key × Node)) (k : Key) : List String :=
  (fs.filterMap fun e => if e.1 ≠ [] ∧ e.1.dropLast = k then e.1.getLast? else none).foldr
    insertName []

/-- Making a new entry at a key: the key must be free. -/
def createAt (w : World) (k : Key) (n : Node) : Except OsError World :=
  match nodeAt w.fs k with
  | some _ => .error (.other "file exists")
  | none =>
    if w.faults.create k then .error (.other "permission denied")
    else .ok (w.withFs (fsSet w.fs k n))

/-- Go `os.Create` at a resolved path, then the contents written: an existing
file is truncated. -/
def createFile (w : World) (dest : Step) (contents : Option String) : Option String × World :=
  let opened : Except OsError (Key × World) :=
    match dest with
    | .found k (.file _) => .ok (k, w.withFs (fsSet w.fs k (.file "")))
    | .found _ _ => .error (.other "is a directory")
    | .missing k =>
      if w.faults.create k then .error (.other "permission denied")
      else .ok (k, w.withFs (fsSet w.fs k (.file "")))
    | .link _ _ _ => .error (.other "too many levels of symbolic links")
    | .fail e => .error e
  match opened with
  | .error e => (some e.text, w)
  | .ok (k, w1) =>
    match contents with
    | none => (some "is a directory", w1)
    | some c =>
      if w1.faults.write k then (some "no space left on device", w1)
      else (none, w1.withFs (fsSet w1.fs k (.file c)))

/-- The `copyFile` of packit: the source is opened, the destination created,
the contents copied. -/
def copyFile (w : World) (source destination : String) : Option String × World :=
  match Stat w source with
  | .error e => (some e.text, w)
  | .ok (.file c) => createFile w (lookupPath w true destination) (some c)
  | .ok _ => createFile w (lookupPath w true destination) none

/-- The `copySymlink` of packit: `os.Readlink`, then `os.Symlink`. -/
def copySymlink (w : World) (source destination : String) : Option String × World :=
  match lookupPath w false source with
  | .found _ (.symlink t) =>
    match lookupPath w false destination with
    | .missing k =>
      match createAt w k (.symlink t) with
      | .ok w1 => (none, w1)
      | .error e => (some e.text, w)
    | .found _ _ => (some "file exists", w)
    | s => (some (match s.toNode with | .error e => e.text | .ok _ => ""), w)
  | .found _ _ => (some "invalid argument", w)
  | s => (some (match s.toNode with | .error e => e.text | .ok _ => ""), w)

/-- The walk of `copyDirectory` below a directory that has been made at the
destination already: the entries of the source directory `src`, in the order
of their names, are made below `dst`; directories are walked in turn. -/
def copyUnder : Nat → World → Key → Key → Option String × World
  | 0, w, _, _ => (some "file name too long", w)
  | fuel + 1, w, src, dst =>
    (childNames w.fs src).foldl
      (fun acc name =>
        match acc with
        | (some e, w1) => (some e, w1)
        | (none, w1) =>
          match nodeAt w1.fs (src ++ [name]) with
          | none => (none, w1)
          | some .dir =>
            match createAt w1 (dst ++ [name]) .dir with
            | .error e => (some e.text, w1)
            | .ok w2 => copyUnder fuel w2 (src ++ [name]) (dst ++ [name])
          | some (.symlink t) =>
            match createAt w1 (dst ++ [name]) (.symlink t) with
            | .error e => (some e.text, w1)
            | .ok w2 => (none, w2)
          | some (.file c) => createFile w1 (.missing (dst ++ [name])) (some c))
      (none, w)

/-- The `copyDirectory` of packit: `filepath.Walk` over the source, which does
not follow symlinks, the source itself included. -/
def copyDirectory (w : World) (source destination : String) : Option String × World :=
  match lookupPath w false source with
  | .found src .dir =>
    match lookupPath w false (Join [destination, "."]) with
    | .missing dst =>
      match createAt w dst .dir with
      | .error e => (some e.text, w)
      | .ok w1 => copyUnder (w1.fs.length + 1) w1 src dst
    | .found _ _ => (some "file exists", w)
    | s => (some (match s.toNode with | .error e => e.text | .ok _ => ""), w)
  | .found _ (.symlink _) => copySymlink w (Join [source, "."]) (Join [destination, "."])
  | .found _ (.file _) => copyFile w (Join [source, "."]) (Join [destination, "."])
  | s => (some (match s.toNode with | .error e => e.text | .ok _ => ""), w)

/-- The `fs.Copy` of packit: the destination is removed with `os.Remove` (that
there is none is fine), then the source is copied as a directory or as a
file, as `os.Stat` tells.  The error and the world as it is left. -/
def Copy (w : World) (source destination : String) : Option String × World :=
  let removed : Except OsError World :=
    match Remove w destination with
    | .ok w1 => .ok w1
    | .error e => if e.isNotExist then .ok w else .error e
  match removed with
  | .error e => (some ("failed to copy: destination exists: " ++ e.text), w)
  | .ok w1 =>
    match Stat w1 source with
    | .error e => (some e.text, w1)
    | .ok info =>
      if info.IsDir then copyDirectory w1 source destination
      else copyFile w1 source destination
/-! ## `encoding/json` -/

/-- A JSON value, as `json.Unmarshal` sees it once the syntax check passed.
An object keeps its members in source order, duplicates included. -/
inductive Json where
  | null
  | bool (b : Bool)
  | num (literal : String)
  | str (s : String)
  | arr (items : List Json)
  | obj (members : List (String × Json))

/-- The fold of one character in `encoding/json`: ASCII letters go to upper
case; for any other character the library takes the smallest member of its
Unicode simple-fold orbit, which `foldRune` supplies. -/
def foldChar (foldRune : Char → Char) (c : Char) : Char :=
  if c.toNat < 0x80 then c.toUpper else foldRune c

/-- The `foldName` of `encoding/json`. -/
def foldName (foldRune : Char → Char) (s : String) : String :=
  ⟨s.data.map (foldChar foldRune)⟩

/-- Which struct field an object key selects: the exact name first, then the
first field with the same folded name. -/
def fieldFor (foldRune : Char → Char) (names : List String) (key : String) : Option String :=
  match names.find? (fun n => n = key) with
  | some n => some n
  | none => names.find? (fun n => foldName foldRune n = foldName foldRune key)

/-- Decoding a value into a Go `string` that currently holds `cur`: `null`
leaves it alone, anything but a string is an `UnmarshalTypeError`. -/
def decodeString (cur : String) : Json → Option String
  | .null => some cur
  | .str s => some s
  | _ => none

/-- Decoding the members of an object into a `map[string]string`; a later
member shadows an earlier one with the same key. -/
def decodeMembers : List (String × Json) → List (String × String) → Option (List (String × String))
  | [], m => some m
  | (k, v) :: rest, m =>
    match decodeString "" v with
    | some s => decodeMembers rest ((k, s) :: m)
    | none => none

/-- Decoding a value into a `map[string]string` (`none` is the nil map):
`null` resets it to nil, an object adds its members to the map that is
there, anything else is an `UnmarshalTypeError`. -/
def decodeStringMap (cur : Option (List (String × String))) :
    Json → Option (Option (List (String × String)))
  | .null => some none
  | .obj members => (decodeMembers members (cur.getD [])).map some
  | _ => none

/-- The parts of `encoding/json` that are taken as given: the syntax phase of
`json.Unmarshal` (`none` for a syntax error) and the Unicode simple fold of a
character outside ASCII. -/
structure JsonLib where
  parse : String → Option Json
  foldRune : Char → Char

/-- The anonymous struct of `isYarnBerry`:
`struct { PackageManager string "json:packageManager" }`. -/
structure PinStruct where
  PackageManager : String
  deriving DecidableEq, Repr

/-- Decoding the members of an object into a `PinStruct`, in source order. -/
def decodePinMembers (foldRune : Char → Char) :
    List (String × Json) → PinStruct → Option PinStruct
  | [], acc => some acc
  | (k, v) :: rest, acc =>
    match fieldFor foldRune ["packageManager"] k with
    | some _ =>
      match decodeString acc.PackageManager v with
      | some s => decodePinMembers foldRune rest { PackageManager := s }
      | none => none
    | none => decodePinMembers foldRune rest acc

/-- Go `json.Unmarshal(data, &pkg)` for the struct of `isYarnBerry`; `none` is
any error (syntax or type). -/
def UnmarshalPin (lib : JsonLib) (data : String) : Option PinStruct :=
  match lib.parse data with
  | none => none
  | some .null => some { PackageManager := "" }
  | some (.obj members) => decodePinMembers lib.foldRune members { PackageManager := "" }
  | some _ => none

/-- The anonymous struct of `Detect`: `Engines map[string]string` and
`PackageManager string`. -/
structure RawStruct where
  Engines : Option (List (String × String))
  PackageManager : String
  deriving DecidableEq, Repr

/-- Decoding the members of an object into a `RawStruct`, in source order. -/
def decodeRawMembers (foldRune : Char → Char) :
    List (String × Json) → RawStruct → Option RawStruct
  | [], acc => some acc
  | (k, v) :: rest, acc =>
    match fieldFor foldRune ["engines", "packageManager"] k with
    | some name =>
      if name = "engines" then
        match decodeStringMap acc.Engines v with
        | some m => decodeRawMembers foldRune rest { acc with Engines := m }
        | none => none
      else
        match decodeString acc.PackageManager v with
        | some s => decodeRawMembers foldRune rest { acc with PackageManager := s }
        | none => none
    | none => decodeRawMembers foldRune rest acc

/-- Go `json.Unmarshal(data, &raw)` for the struct of `Detect`. -/
def UnmarshalRaw (lib : JsonLib) (data : String) : Option RawStruct :=
  match lib.parse data with
  | none => none
  | some .null => some { Engines := none, PackageManager := "" }
  | some (.obj members) =>
    decodeRawMembers lib.foldRune members { Engines := none, PackageManager := "" }
  | some _ => none

/-- Go map index `m[key]` with the comma-ok form, on a possibly nil map. -/
def mapIndex (m : Option (List (String × String))) (key : String) : String × Bool :=
  match (m.getD []).lookup key with
  | some v => (v, true)
  | none => ("", false)

/-! ## `install_process.go`: `isYarnBerry` -/

/-- Source `isYarnBerry`: whether the project looks like Yarn Berry. -/
def isYarnBerry (lib : JsonLib) (w : World) (workingDir : String) : Bool :=
  -- .yarnrc.yml present
  match Stat w (Join [workingDir, ".yarnrc.yml"]) with
  | .ok _ => true
  | .error _ =>
    -- .yarn directory present
    match Stat w (Join [workingDir, ".yarn"]) with
    | .ok .dir => true
    | _ =>
      -- package.json packageManager field
      let pkgPath := Join [workingDir, "package.json"]
      match ReadFile w pkgPath with
      | .ok data =>
        match UnmarshalPin lib data with
        | some pkg =>
          if HasPrefix pkg.PackageManager "yarn@" then
            let ver := TrimPrefix pkg.PackageManager "yarn@"
            let major :=
              match IndexAny ver ".-" with
              | some idx => sliceTo ver idx
              | none => ver
            if major ≠ "" ∧ geString major "2" = true then true
            else
              -- still assume Berry since packageManager exists
              true
          else false
        | none => false
      | .error _ => false

/-! ## `detect.go` -/

/-- Source `BuildPlanMetadata`. -/
structure BuildPlanMetadata where
  Version : String
  VersionSource : String
  Build : Bool
  deriving DecidableEq, Repr

/-- The `packit.BuildPlanRequirement` built by `Detect`. -/
structure BuildPlanRequirement where
  Name : String
  Metadata : BuildPlanMetadata
  deriving DecidableEq, Repr

/-- The `packit.BuildPlanProvision`. -/
structure BuildPlanProvision where
  Name : String
  deriving DecidableEq, Repr

/-- The `packit.BuildPlan`. -/
structure BuildPlan where
  Provides : List BuildPlanProvision
  Requires : List BuildPlanRequirement
  deriving DecidableEq, Repr

/-- The `packit.DetectResult`. -/
structure DetectResult where
  Plan : BuildPlan
  deriving DecidableEq, Repr

/-- The error value of `Detect`: a detection failure made with
`packit.Fail.WithMessage`, or any other error. -/
inductive DetectError where
  | fail (message : String)
  | err (message : String)
  deriving DecidableEq, Repr

/-- The package constants `PlanDependencyNodeModules`, `PlanDependencyNode`
and `PlanDependencyYarn`; their declaration is not in the two files. -/
structure PlanNames where
  PlanDependencyNodeModules : String
  PlanDependencyNode : String
  PlanDependencyYarn : String

/-- The value `libnodejs.ParsePackageJSON` returns, as far as `Detect` reads
it. -/
structure PackageJSON where
  Version : String

/-- Go `pkg.GetVersion()`. -/
def PackageJSON.GetVersion (pkg : PackageJSON) : String :=
  pkg.Version

/-- The two functions of `libnodejs` that `Detect` calls. -/
structure NodeLib where
  FindProjectPath : World → String → Except String String
  ParsePackageJSON : World → String → Except OsError PackageJSON

/-- The `fs.Exists` of packit. -/
def Exists (w : World) (path : String) : Except OsError Bool :=
  match Stat w path with
  | .ok _ => .ok true
  | .error e => if e.isNotExist then .ok false else .error e

/-- Source `Detect`, applied to `context.WorkingDir`. -/
def Detect (names : PlanNames) (node : NodeLib) (lib : JsonLib) (w : World)
    (workingDir : String) : Except DetectError DetectResult :=
  match node.FindProjectPath w workingDir with
  | .error e => .error (.err e)
  | .ok projectPath =>
    match Exists w (Join [projectPath, "yarn.lock"]) with
    | .error e => .error (.err e.text)
    | .ok false =>
      .error (.fail ("no \x27yarn.lock\x27 file found in the project path " ++ projectPath))
    | .ok true =>
      match node.ParsePackageJSON w projectPath with
      | .error e =>
        if e.isNotExist then
          .error (.fail ("no \x27package.json\x27 found in project path " ++ Join [projectPath]))
        else .error (.err e.text)
      | .ok pkg =>
        let nodeVersion := pkg.GetVersion
        -- Determine yarn version from package.json (engines.yarn or packageManager)
        let noVersion : String × String := ("", "")
        let pkgJSONPath := Join [projectPath, "package.json"]
        let yarn : String × String :=
          match ReadFile w pkgJSONPath with
          | .ok data =>
            match UnmarshalRaw lib data with
            | some raw =>
              let fromEngines : String × String :=
                if raw.Engines ≠ none then
                  let (v, ok) := mapIndex raw.Engines "yarn"
                  if ok = true ∧ v ≠ "" then (v, "package.json#engines.yarn") else noVersion
                else noVersion
              if fromEngines.1 = "" ∧ len raw.PackageManager > 0 then
                let idx := len "yarn@"
                if len raw.PackageManager > idx ∧ sliceTo raw.PackageManager idx = "yarn@" then
                  (sliceFrom raw.PackageManager idx, "package.json#packageManager")
                else fromEngines
              else fromEngines
            | none => noVersion
          | .error _ => noVersion
        let yarnVersion := yarn.1
        let yarnVersionSource := yarn.2
        let nodeRequirement : BuildPlanRequirement :=
          if nodeVersion ≠ "" then
            { Name := names.PlanDependencyNode,
              Metadata := { Version := nodeVersion, VersionSource := "package.json", Build := true } }
          else
            { Name := names.PlanDependencyNode,
              Metadata := { Version := "", VersionSource := "", Build := true } }
        -- Compose Yarn requirement, optionally with version metadata
        let yarnRequirement : BuildPlanRequirement :=
          if yarnVersion ≠ "" then
            { Name := names.PlanDependencyYarn,
              Metadata := { Version := yarnVersion, VersionSource := yarnVersionSource, Build := true } }
          else
            { Name := names.PlanDependencyYarn,
              Metadata := { Version := "", VersionSource := "", Build := true } }
        .ok { Plan := { Provides := [{ Name := names.PlanDependencyNodeModules }],
                        Requires := [nodeRequirement, yarnRequirement] } }

/-! ## `install_process.go`: the process and its collaborators -/

/-- The fields of `pexec.Execution` the code sets (`Stdout` and `Stderr` are
the buffer the output comes back in). -/
structure Execution where
  Args : List String
  Env : List String
  Dir : String
  deriving DecidableEq, Repr

/-- What a run of the external tool does: its error, the output it wrote to
`Stdout` and `Stderr`, and the world it leaves. -/
structure ExecOutcome where
  err : Option String
  output : String
  world : World

/-- Source `YarnInstallProcess`: the `Executable` and the `Summer` (the logger
only writes to the build log and is left out). -/
structure YarnInstallProcess where
  /-- Interface `Executable`: `Execute(pexec.Execution) error`. -/
  executable : Execution → World → ExecOutcome
  /-- Interface `Summer`: `Sum(paths ...string) (string, error)`; it reads the
  world and does not change it. -/
  summer : List String → World → Except String String

/-- A value of Go type `interface{}` in the layer metadata. -/
inductive MetaValue where
  | str (s : String)
  | int (i : Int)
  | bool (b : Bool)
  | other (tag : String)
  deriving DecidableEq, Repr

/-- Go type assertion `v.(string)` with the comma-ok form, on the result of a
map index (`none` when the key is absent). -/
def assertString : Option MetaValue → String × Bool
  | some (.str s) => (s, true)
  | _ => ("", false)

/-- What the process did, in order, as far as the properties need it. -/
inductive Event where
  /-- A call of `executable.Execute`. -/
  | exec (e : Execution)
  /-- A temporary file made by `os.CreateTemp`. -/
  | temp (name : String)
  /-- A call of `summer.Sum`, with the contents found at each path then. -/
  | sum (paths : List String) (inputs : List (Except OsError String))
  /-- A line printed with `fmt.Println`. -/
  | print (line : String)
  deriving DecidableEq

/-- How a Go call ends: it returns, or it panics. -/
inductive Outcome (α : Type) where
  | returned (value : α)
  | panicked (why : String)
  deriving DecidableEq

/-- A piece of the process run: its result, what it did, and the world it
leaves. -/
structure Effect (α : Type) where
  result : α
  events : List Event
  world : World

/-- The results `(run bool, sha string, err error)` of `ShouldRun`. -/
structure ShouldRunReturn where
  run : Bool
  sha : String
  err : Option String
  deriving DecidableEq, Repr

/-- The configuration text `ShouldRun` puts in its buffer first: for Berry the
contents of `.yarnrc.yml` if it can be read, otherwise the output of
`yarn config list --silent`, whose failure is an error. -/
def configSnapshot (lib : JsonLib) (ip : YarnInstallProcess) (w : World)
    (workingDir : String) : Effect (Except String String) :=
  if isYarnBerry lib w workingDir then
    match ReadFile w (Join [workingDir, ".yarnrc.yml"]) with
    | .ok data => ⟨.ok data, [], w⟩
    | .error _ => ⟨.ok "", [], w⟩
  else
    let e : Execution := { Args := ["config", "list", "--silent"], Env := [], Dir := workingDir }
    let r := ip.executable e w
    match r.err with
    | some err =>
      ⟨.error ("failed to execute yarn config output:\n" ++ r.output ++ "\nerror: " ++ err),
       [.exec e], r.world⟩
    | none => ⟨.ok r.output, [.exec e], r.world⟩

/-- Source `YarnInstallProcess.ShouldRun`. -/
def ShouldRun (lib : JsonLib) (ip : YarnInstallProcess) (w : World) (workingDir : String)
    (metadata : String → Option MetaValue) : Effect (Outcome ShouldRunReturn) :=
  match Stat w (Join [workingDir, "yarn.lock"]) with
  | .error e =>
    if e.isNotExist then ⟨.returned ⟨true, "", none⟩, [], w⟩
    else ⟨.returned ⟨true, "", some ("unable to read yarn.lock file: " ++ e.text)⟩, [], w⟩
  | .ok _ =>
    -- buffer := bytes.NewBuffer(nil), then the configuration is written to it
    let config := configSnapshot lib ip w workingDir
    match config.result with
    | .error msg => ⟨.returned ⟨true, "", some msg⟩, config.events, config.world⟩
    | .ok buffer0 =>
      let w1 := config.world
      let nodeEnv := Getenv w1 "NODE_ENV"
      let buffer := buffer0 ++ nodeEnv
      match CreateTemp w1 "" "config-file" with
      | .error _ =>
        -- file is nil here and file.Name() dereferences it
        ⟨.panicked "invalid memory address or nil pointer dereference", config.events, w1⟩
      | .ok (file, w2) =>
        let events := config.events ++ [.temp file.Name]
        -- defer file.Close(): every return below closes the file
        match Write w2 file buffer with
        | .error e =>
          ⟨.returned ⟨true, "", some ("failed to write temp file for " ++ file.Name ++ ": " ++ e.text)⟩,
           events, Close w2 file⟩
        | .ok w3 =>
          let paths := [Join [workingDir, "yarn.lock"], Join [workingDir, "package.json"], file.Name]
          let events := events ++ [.sum paths (paths.map (ReadFile w3))]
          match ip.summer paths w3 with
          | .error e =>
            ⟨.returned ⟨true, "", some ("unable to sum config files: " ++ e)⟩, events, Close w3 file⟩
          | .ok sum =>
            let (prevSHA, ok) := assertString (metadata "cache_sha")
            -- the fingerprint is new when it differs or there was none
            if (ok && sum != prevSHA) || !ok then
              ⟨.returned ⟨true, sum, none⟩, events, Close w3 file⟩
            else
              ⟨.returned ⟨false, "", none⟩, events, Close w3 file⟩

/-! ## `install_process.go`: `SetupModules` -/

/-- Source `YarnInstallProcess.SetupModules`: the returned path or the error,
and the world it leaves. -/
def SetupModules (w : World) (workingDir currentModulesLayerPath nextModulesLayerPath : String) :
    Except String String × World :=
  if currentModulesLayerPath ≠ "" then
    match Copy w (Join [currentModulesLayerPath, "node_modules"])
        (Join [nextModulesLayerPath, "node_modules"]) with
    | (some err, w1) => (.error ("failed to copy node_modules directory: " ++ err), w1)
    | (none, w1) => (.ok nextModulesLayerPath, w1)
  else
    let stat := Lstat w (Join [workingDir, "node_modules"])
    match stat with
    | .error (.other e) => (.error ("failed to stat node_modules directory: " ++ e), w)
    | _ =>
      -- file is nil when Lstat found nothing
      let file : Option Node := stat.toOption
      let removed : Except OsError World :=
        match file with
        | some f =>
          if f.isSymlink then RemoveAll w (Join [workingDir, "node_modules"]) else .ok w
        | none => .ok w
      match removed with
      | .error e => (.error ("failed to remove node_modules symlink: " ++ e.text), w)
      | .ok w1 =>
        match MkdirAll w1 (Join [workingDir, "node_modules"]) with
        | .error e => (.error ("failed to create node_modules directory: " ++ e.text), w1)
        | .ok w2 => (.ok nextModulesLayerPath, w2)

/-! ## `install_process.go`: `Execute` -/

/-- Go `os.PathListSeparator` (Unix). -/
def PathListSeparator : Char := ':'

/-- The loop of `Execute` over the lines of the `yarn config get` output: the
first line that starts with `/` once trimmed, trimmed; empty when there is
none. -/
def offlineMirrorDir (output : String) : String :=
  match (SplitLines output).find? (fun line => HasPrefix (TrimSpace line) "/") with
  | some line => TrimSpace line
  | none => ""

/-- Source `YarnInstallProcess.Execute`; the result is the returned error. -/
def Execute (lib : JsonLib) (ip : YarnInstallProcess) (w : World)
    (workingDir modulesLayerPath : String) (launch : Bool) : Effect (Option String) :=
  let environment := Environ w
  let environment := environment ++
    ["PATH=" ++ Getenv w "PATH" ++ String.singleton PathListSeparator ++ Join ["node_modules", ".bin"]]
  let isBerry := isYarnBerry lib w workingDir
  let e0 : Execution :=
    { Args := ["config", "get", "yarn-offline-mirror"], Env := environment, Dir := workingDir }
  -- the query runs for Yarn 1 only; without it the buffer stays empty
  let query : ExecOutcome :=
    if !isBerry then ip.executable e0 w else { err := none, output := "", world := w }
  let events0 : List Event := if !isBerry then [.exec e0] else []
  match query.err with
  | some err =>
    ⟨some ("failed to execute yarn config output:\n" ++ query.output ++ "\nerror: " ++ err),
     events0, query.world⟩
  | none =>
    let buffer := query.output
    let w1 := query.world
    let installArgs := ["install"]
    let installArgs :=
      if isBerry then installArgs ++ ["--immutable"]
      else (installArgs ++ ["--ignore-engines"]) ++ ["--frozen-lockfile"]
    let (installArgs, environment) :=
      if !launch then
        if isBerry then
          -- Yarn 4 has no --production flag: NODE_ENV carries the choice
          (installArgs, environment ++ ["NODE_ENV=development"])
        else (installArgs ++ ["--production", "false"], environment)
      else (installArgs, environment)
    -- Determine offline install behavior
    let offline : Except String (List String) :=
      if isBerry then
        let berryCacheDir := Join [workingDir, ".yarn", "cache"]
        match Stat w1 berryCacheDir with
        | .ok info => if info.IsDir then .ok (installArgs ++ ["--offline"]) else .ok installArgs
        | .error statErr =>
          if !statErr.isNotExist then
            .error ("failed to confirm existence of berry cache directory: " ++ statErr.text)
          else .ok installArgs
      else
        match Stat w1 (offlineMirrorDir buffer) with
        | .error statErr =>
          if !statErr.isNotExist then
            .error ("failed to confirm existence of offline mirror directory: " ++ statErr.text)
          else .ok installArgs
        | .ok info => if info.IsDir then .ok (installArgs ++ ["--offline"]) else .ok installArgs
    match offline with
    | .error msg => ⟨some msg, events0, w1⟩
    | .ok installArgs =>
      let e1 : Execution := { Args := installArgs, Env := environment, Dir := workingDir }
      let r := ip.executable e1 w1
      match r.err with
      | some err => ⟨some ("failed to execute yarn install: " ++ err), events0 ++ [.exec e1], r.world⟩
      | none =>
        -- Copy node_modules to layers folder for caching purpose
        let copied := Copy r.world (Join [workingDir, "node_modules"])
          (Join [modulesLayerPath, "node_modules"])
        let printed : List Event :=
          match copied.1 with
          | some err => [.print err, .print "Copy successful."]
          | none => [.print "Copy successful."]
        ⟨none, events0 ++ [.exec e1] ++ printed, copied.2⟩


/-! ## Names for what the properties speak about -/

/-- The environment `Execute` builds before it looks at the phase: the ambient
entries, then the `PATH` entry it adds. -/
def baseEnvironment (w : World) : List String :=
  Environ w ++
    ["PATH=" ++ Getenv w "PATH" ++ String.singleton PathListSeparator ++ Join ["node_modules", ".bin"]]

/-- The `yarn config get yarn-offline-mirror` call of `Execute`. -/
def mirrorQuery (w : World) (workingDir : String) : Execution :=
  { Args := ["config", "get", "yarn-offline-mirror"], Env := baseEnvironment w, Dir := workingDir }

/-- The `os.Stat` that `Execute` bases the offline decision on: `.yarn/cache`
for Berry, otherwise the directory its loop read from the output of the
query, in the world the query left. -/
def offlineStat (lib : JsonLib) (ip : YarnInstallProcess) (w : World) (workingDir : String) :
    Except OsError Node :=
  if isYarnBerry lib w workingDir then Stat w (Join [workingDir, ".yarn", "cache"])
  else
    Stat (ip.executable (mirrorQuery w workingDir) w).world
      (offlineMirrorDir (ip.executable (mirrorQuery w workingDir) w).output)

/-- Whether `Execute` adds `--offline`. -/
def offlineFlag (lib : JsonLib) (ip : YarnInstallProcess) (w : World) (workingDir : String) :
    Bool :=
  match offlineStat lib ip w workingDir with
  | .ok info => info.IsDir
  | .error _ => false

/-- The specification's reading of the output of the mirror query: `dir` is
the first line that begins with `/` once it is trimmed, trimmed. -/
def IsQueriedMirror (output dir : String) : Prop :=
  ∃ pre line post, SplitLines output = pre ++ line :: post ∧
    (∀ l ∈ pre, HasPrefix (TrimSpace l) "/" = false) ∧
    HasPrefix (TrimSpace line) "/" = true ∧ dir = TrimSpace line

/-- Offline evidence as the specification words it: for Berry, `.yarn/cache`
under the working directory exists and is a directory; for Classic, the
mirror directory read from the output of the query exists and is a
directory, in the world the query left. -/
def OfflineEvidence (lib : JsonLib) (ip : YarnInstallProcess) (w : World)
    (workingDir : String) : Prop :=
  (isYarnBerry lib w workingDir = true ∧
    Stat w (Join [workingDir, ".yarn", "cache"]) = .ok .dir) ∨
  (isYarnBerry lib w workingDir = false ∧
    ∃ dir, IsQueriedMirror (ip.executable (mirrorQuery w workingDir) w).output dir ∧
      Stat (ip.executable (mirrorQuery w workingDir) w).world dir = .ok .dir)

/-- The directory whose `os.Stat` decides about offline mode cannot be looked
at: the answer is an error other than not-exist. -/
def OfflineStatFails (lib : JsonLib) (ip : YarnInstallProcess) (w : World)
    (workingDir : String) : Prop :=
  (isYarnBerry lib w workingDir = true ∧
    ∃ errno, Stat w (Join [workingDir, ".yarn", "cache"]) = .error (.other errno)) ∨
  (isYarnBerry lib w workingDir = false ∧
    ∃ dir errno, IsQueriedMirror (ip.executable (mirrorQuery w workingDir) w).output dir ∧
      Stat (ip.executable (mirrorQuery w workingDir) w).world dir = .error (.other errno))

/-- The rule table of the specification for the install arguments, by variant
(`modern`), phase (`launch`) and offline evidence. -/
def ruleTableArgs (modern launch offline : Bool) : List String :=
  if modern then
    ["install", "--immutable"] ++ (if offline then ["--offline"] else [])
  else
    ["install", "--ignore-engines", "--frozen-lockfile"] ++
      (if launch then [] else ["--production", "false"]) ++
      (if offline then ["--offline"] else [])

/-- The rule table of the specification for the environment overlay. -/
def ruleTableEnv (w : World) (modern launch : Bool) : List String :=
  baseEnvironment w ++ (if modern && !launch then ["NODE_ENV=development"] else [])

/-- The install invocation the rule table prescribes for a variant, a phase
and an answer about offline evidence. -/
def ruleTableInstall (w : World) (workingDir : String) (modern launch offline : Bool) :
    Execution :=
  { Args := ruleTableArgs modern launch offline,
    Env := ruleTableEnv w modern launch,
    Dir := workingDir }

/-- The paths `ShouldRun` hands to the summer: lockfile, manifest and the
temporary file with the snapshot. -/
def digestPaths (workingDir : String) (file : File) : List String :=
  [Join [workingDir, "yarn.lock"], Join [workingDir, "package.json"], file.Name]

/-- The input of the digest: the contents of the lockfile and of the manifest
in the world `w3` the summer is called in, and the snapshot. -/
def digestInputs (w3 : World) (workingDir snapshot : String) : List (Except OsError String) :=
  [ReadFile w3 (Join [workingDir, "yarn.lock"]), ReadFile w3 (Join [workingDir, "package.json"]),
   .ok snapshot]

/-! ## Concrete projects, used to run the definitions -/

/-- An operating system on which nothing fails for outside reasons. -/
def noFaults : Faults :=
  { search := fun _ => false, create := fun _ => false, write := fun _ => false,
    remove := fun _ => false }

/-- Layer metadata given by its entries. -/
def metadataOf (entries : List (String × MetaValue)) : String → Option MetaValue :=
  fun k => entries.lookup k

/-- The manifest `{}`. -/
def manifestPlain : String := "\x7b\x7d"

/-- The manifest `{"packageManager":"yarn@4.2.2"}`. -/
def manifestPin : String := "\x7b\"packageManager\":\"yarn@4.2.2\"\x7d"

/-- The manifest `{"engines":{"yarn":"1.22.0"},"packageManager":"yarn@1.22.0"}`. -/
def manifestBoth : String :=
  "\x7b\"engines\":\x7b\"yarn\":\"1.22.0\"\x7d,\"packageManager\":\"yarn@1.22.0\"\x7d"

/-- A JSON library that knows the three manifests above. -/
def sampleLib : JsonLib :=
  { parse := fun s =>
      if s = manifestPlain then some (.obj [])
      else if s = manifestPin then some (.obj [("packageManager", .str "yarn@4.2.2")])
      else if s = manifestBoth then
        some (.obj [("engines", .obj [("yarn", .str "1.22.0")]),
                    ("packageManager", .str "yarn@1.22.0")])
      else none,
    foldRune := id }

/-- The output of the sample `yarn config get yarn-offline-mirror`: a warning,
then the mirror directory with blanks around it. -/
def mirrorOutput : String := "warning no network\n  /mirror/ \n"

/-- A `yarn` that reports `/mirror/` as its offline mirror and otherwise
prints nothing, and a summer whose digest is the contents of the files, one
after the other. -/
def sampleProcess : YarnInstallProcess :=
  { executable := fun e w =>
      if e.Args = ["config", "get", "yarn-offline-mirror"] then
        { err := none, output := mirrorOutput, world := w }
      else { err := none, output := "", world := w },
    summer := fun paths w =>
      .ok (String.join (paths.map fun p =>
        match ReadFile w p with
        | .ok c => c
        | .error _ => "")) }

/-- A Berry project in `/workspace`, with `/tmp` for temporary files, its
`.yarnrc.yml` holding `config` and `NODE_ENV` set to `nodeEnv`. -/
def berryProject (config nodeEnv : String) : World :=
  { fs := [(["workspace"], .dir),
           (["workspace", "yarn.lock"], .file "lock"),
           (["workspace", "package.json"], .file manifestPlain),
           (["workspace", ".yarnrc.yml"], .file config),
           (["tmp"], .dir)],
    cwd := ["workspace"],
    env := [("NODE_ENV", nodeEnv), ("PATH", "/usr/bin")],
    tempSuffix := "123", handles := [], faults := noFaults }

/-- A Berry project: `.yarnrc.yml` holds `nodeLinker: pnp` and a newline,
`NODE_ENV` is `test`. -/
def berryWorld : World := berryProject "nodeLinker: pnp\n" "test"

/-- The same project with two more characters in `.yarnrc.yml` and two fewer in
`NODE_ENV`. -/
def berryWorldShifted : World := berryProject "nodeLinker: pnp\nte" "st"

/-- The Berry project with `NODE_ENV` set to `production`. -/
def berryWorldProduction : World := berryProject "nodeLinker: pnp\n" "production"

/-- The file `ShouldRun` makes in these projects. -/
def sampleTemp : File := { Name := "/tmp/config-file123", key := ["tmp", "config-file123"] }

/-- A world once `ShouldRun` has made its temporary file in it. -/
def withTemp (w : World) : World :=
  { w with fs := fsSet w.fs sampleTemp.key (.file ""), handles := sampleTemp.key :: w.handles }

/-- A world once `ShouldRun` has written the snapshot to its temporary file. -/
def withSnapshot (w : World) (snapshot : String) : World :=
  (withTemp w).withFs (fsSet (withTemp w).fs sampleTemp.key (.file ("" ++ snapshot)))

/-- A Classic project with an offline mirror at `/mirror`, a stale symlink at
`node_modules` into the layer of an earlier build, and an empty next layer. -/
def classicWorld : World :=
  { fs := [(["workspace"], .dir),
           (["workspace", "yarn.lock"], .file "lock"),
           (["workspace", "package.json"], .file manifestPlain),
           (["workspace", "node_modules"], .symlink "/layers/old/node_modules"),
           (["layers"], .dir),
           (["layers", "old"], .dir),
           (["layers", "old", "node_modules"], .dir),
           (["layers", "old", "node_modules", "left-pad.js"], .file "module.exports = 1"),
           (["layers", "new"], .dir),
           (["mirror"], .dir),
           (["tmp"], .dir)],
    cwd := ["workspace"],
    env := [("PATH", "/usr/bin")],
    tempSuffix := "7", handles := [], faults := noFaults }

/-- A project with the given manifest and nothing else but, if `locked`, a
`yarn.lock`. -/
def manifestProject (manifest : String) (locked : Bool) : World :=
  { fs := [(["workspace"], .dir), (["workspace", "package.json"], .file manifest)] ++
      (if locked then [(["workspace", "yarn.lock"], .file "lock")] else []),
    cwd := ["workspace"], env := [], tempSuffix := "1", handles := [], faults := noFaults }

/-- A project with a manifest but no `yarn.lock`. -/
def unlockedWorld : World := manifestProject manifestPin false

/-- A project whose manifest has both `engines.yarn` and a pin. -/
def enginesWorld : World := manifestProject manifestBoth true

/-- A project whose manifest has the pin `yarn@4.2.2` only. -/
def pinWorld : World := manifestProject manifestPin true

/-- The usual values of the plan constants. -/
def sampleNames : PlanNames :=
  { PlanDependencyNodeModules := "node_modules", PlanDependencyNode := "node",
    PlanDependencyYarn := "yarn" }

/-- A `libnodejs` whose project path is the working directory and which finds
no node version. -/
def sampleNodeLib : NodeLib :=
  { FindProjectPath := fun _ dir => .ok dir,
    ParsePackageJSON := fun w dir =>
      match ReadFile w (Join [dir, "package.json"]) with
      | .ok _ => .ok { Version := "" }
      | .error e => .error e }

/-! ## Lemmas about strings and decoding -/


/-- The byte length of a concatenation is the sum of the byte lengths. -/
theorem len_append (a b : String) : len (a ++ b) = len a + len b := by
  simp [len, String.data_append]

/-- A string that is not empty has at least one byte. -/
theorem len_pos_of_ne_empty (v : String) (hv : v ≠ "") : 0 < len v := by
  obtain ⟨cs⟩ := v
  cases cs with
  | nil => exact absurd rfl hv
  | cons c cs =>
    have := Char.utf8Size_pos c
    simp [len]
    omega

/-- A concatenation has its first part as prefix. -/
theorem HasPrefix_append (pre v : String) : HasPrefix (pre ++ v) pre = true := by
  simp [HasPrefix, String.data_append]

/-- Slicing a concatenation at the length of its first part gives the first part. -/
theorem sliceTo_append (pre v : String) : sliceTo (pre ++ v) pre.data.length = pre := by
  simp [sliceTo, String.data_append]

/-- Slicing a concatenation from the length of its first part gives the second part. -/
theorem sliceFrom_append (pre v : String) : sliceFrom (pre ++ v) pre.data.length = v := by
  simp [sliceFrom, String.data_append]

/-- The folded name of the field `engines`, whatever the fold outside ASCII. -/
theorem foldName_engines (fr : Char → Char) : foldName fr "engines" = "ENGINES" := by
  rfl

/-- The folded name of the field `packageManager`, whatever the fold outside ASCII. -/
theorem foldName_packageManager (fr : Char → Char) :
    foldName fr "packageManager" = "PACKAGEMANAGER" := by
  rfl

/-- A key selects `packageManager` in the struct of `Detect` exactly when it does in the struct of `isYarnBerry`. -/
theorem fieldFor_pin_of_raw (fr : Char → Char) (k : String) :
    (fieldFor fr ["engines", "packageManager"] k = some "packageManager" →
      fieldFor fr ["packageManager"] k = some "packageManager") ∧
    (fieldFor fr ["engines", "packageManager"] k = some "engines" →
      fieldFor fr ["packageManager"] k = none) ∧
    (fieldFor fr ["engines", "packageManager"] k = none →
      fieldFor fr ["packageManager"] k = none) ∧
    (∀ n, fieldFor fr ["engines", "packageManager"] k = some n →
      n = "engines" ∨ n = "packageManager") := by
  simp only [fieldFor, List.find?, foldName_engines, foldName_packageManager]
  by_cases h1 : "engines" = k
  · subst h1
    simp [foldName_engines]
  · by_cases h2 : "packageManager" = k
    · subst h2
      simp [foldName_packageManager]
    · by_cases h3 : "ENGINES" = foldName fr k
      · simp [h1, h2, ← h3]
      · by_cases h4 : "PACKAGEMANAGER" = foldName fr k
        · simp [h1, h2, h3, ← h4]
        · simp [h1, h2, h3, h4]

/-- Members that decode into the struct of `Detect` decode into the struct of `isYarnBerry`, with the same `packageManager`. -/
theorem decodePin_of_decodeRaw (fr : Char → Char) (ms : List (String × Json)) :
    ∀ (acc r : RawStruct), decodeRawMembers fr ms acc = some r →
      decodePinMembers fr ms { PackageManager := acc.PackageManager } =
        some { PackageManager := r.PackageManager } := by
  induction ms with
  | nil =>
    intro acc r h
    simp [decodeRawMembers] at h
    simp [decodePinMembers, h]
  | cons kv rest ih =>
    intro acc r h
    obtain ⟨k, v⟩ := kv
    obtain ⟨hpm, heng, hnone, hcases⟩ := fieldFor_pin_of_raw fr k
    unfold decodeRawMembers at h
    unfold decodePinMembers
    cases hf : fieldFor fr ["engines", "packageManager"] k with
    | none =>
      rw [hf] at h
      simp only [hnone hf]
      exact ih acc r h
    | some n =>
      rw [hf] at h
      rcases hcases n hf with rfl | rfl
      · simp only [heng hf]
        simp only [if_true] at h
        cases hm : decodeStringMap acc.Engines v with
        | none => simp [hm] at h
        | some m =>
          simp only [hm] at h
          exact ih { acc with Engines := m } r h
      · simp only [hpm hf]
        have hne : ¬ ("packageManager" = "engines") := by decide
        simp only [hne, if_false] at h
        cases hs : decodeString acc.PackageManager v with
        | none => simp [hs] at h
        | some s =>
          simp only [hs] at h
          exact ih { acc with PackageManager := s } r h

/-- Data that `Detect` can decode, `isYarnBerry` can decode, with the same `packageManager`. -/
theorem UnmarshalPin_of_UnmarshalRaw (lib : JsonLib) (data : String) (raw : RawStruct)
    (h : UnmarshalRaw lib data = some raw) :
    UnmarshalPin lib data = some { PackageManager := raw.PackageManager } := by
  unfold UnmarshalRaw at h
  unfold UnmarshalPin
  cases hp : lib.parse data with
  | none => simp [hp] at h
  | some j =>
    cases j with
    | null => simp [hp] at h; simp [← h]
    | obj ms =>
      simp only [hp] at h
      exact decodePin_of_decodeRaw lib.foldRune ms _ raw h
    | bool b => simp [hp] at h
    | num n => simp [hp] at h
    | str s => simp [hp] at h
    | arr xs => simp [hp] at h

/-- The three kinds of evidence that make `isYarnBerry` answer true. -/
theorem isYarnBerry_eq_true_iff (lib : JsonLib) (w : World) (workingDir : String) :
    isYarnBerry lib w workingDir = true ↔
      ((∃ info, Stat w (Join [workingDir, ".yarnrc.yml"]) = .ok info) ∨
        Stat w (Join [workingDir, ".yarn"]) = .ok .dir ∨
        ∃ data pkg, ReadFile w (Join [workingDir, "package.json"]) = .ok data ∧
          UnmarshalPin lib data = some pkg ∧ HasPrefix pkg.PackageManager "yarn@" = true) := by
  unfold isYarnBerry
  cases h1 : Stat w (Join [workingDir, ".yarnrc.yml"]) with
  | ok info => simp
  | error e1 =>
    by_cases h2 : Stat w (Join [workingDir, ".yarn"]) = .ok .dir
    · simp [h2]
    · cases h3 : ReadFile w (Join [workingDir, "package.json"]) with
      | error e3 =>
        simp [h2]
        split <;> simp_all
      | ok data =>
        cases h4 : UnmarshalPin lib data with
        | none => simp [h2]; split <;> simp_all
        | some pkg =>
          simp [h2]
          split
          · simp_all
          · simp_all


/-! ## Lemmas about the file system -/

/-- Looking up after the entries at one key were filtered out. -/
theorem lookup_filter_ne (fs : List (Key × Node)) (k q : Key) :
    (fs.filter fun e => e.1 ≠ k).lookup q = if q = k then none else fs.lookup q := by
  induction fs with
  | nil => simp
  | cons e rest ih =>
    obtain ⟨ek, en⟩ := e
    by_cases hek : ek = k
    · subst hek
      simp only [List.filter, ne_eq, not_true_eq_false, decide_False]
      rw [ih]
      by_cases hq : q = ek
      · simp [hq]
      · have : (q == ek) = false := by simpa using hq
        simp [hq, List.lookup, this]
    · simp only [List.filter, ne_eq, hek, not_false_eq_true, decide_True]
      by_cases hq : q = ek
      · subst hq
        simp [List.lookup, hek]
      · have : (q == ek) = false := by simpa using hq
        simp only [List.lookup, this]
        exact ih

/-- The node at a key after an entry was set. -/
theorem nodeAt_fsSet (fs : List (Key × Node)) (k q : Key) (n : Node) (hk : k ≠ []) :
    nodeAt (fsSet fs k n) q = if q = k then some n else nodeAt fs q := by
  unfold nodeAt fsSet
  by_cases hq0 : q = []
  · subst hq0
    have : ¬ ([] : Key) = k := fun h => hk h.symm
    simp [this]
  · by_cases hq : q = k
    · subst hq
      simp [hq0, List.lookup]
    · have hb : (q == k) = false := by simpa using hq
      simp only [hq0, if_false, List.lookup, hb, hq]
      rw [lookup_filter_ne]
      simp [hq]

/-- The node at a key after an entry was deleted. -/
theorem nodeAt_fsDelete (fs : List (Key × Node)) (k q : Key) (hk : k ≠ []) :
    nodeAt (fsDelete fs k) q = if q = k then none else nodeAt fs q := by
  unfold nodeAt fsDelete
  by_cases hq0 : q = []
  · subst hq0
    have : ¬ ([] : Key) = k := fun h => hk h.symm
    simp [this]
  · simp only [hq0, if_false]
    exact lookup_filter_ne fs k q

/-- A key that names nothing is not the root. -/
theorem ne_nil_of_nodeAt_none (fs : List (Key × Node)) (k : Key) (h : nodeAt fs k = none) :
    k ≠ [] := by
  intro hk
  simp [nodeAt, hk] at h

/-- A key that names a file or a symlink is not the root. -/
theorem ne_nil_of_nodeAt_not_dir (fs : List (Key × Node)) (k : Key) (n : Node)
    (h : nodeAt fs k = some n) (hn : n ≠ .dir) : k ≠ [] := by
  intro hk
  simp [nodeAt, hk] at h
  exact hn h.symm

/-- A walk that does not end on a symlink gives the same with the last
symlink followed. -/
theorem walkComps_follow (fs : List (Key × Node)) (F : Faults) :
    ∀ (comps : List String) (cur : Key) (s : Step),
      walkComps fs F false comps cur = s → (∀ k t, s ≠ .found k (.symlink t)) →
      walkComps fs F true comps cur = s := by
  intro comps
  induction comps with
  | nil =>
    intro cur s h _
    simpa [walkComps] using h
  | cons c rest ih =>
    intro cur s h hs
    unfold walkComps at h ⊢
    by_cases hf : F.search cur = true
    · simpa [hf] using h
    · simp only [hf] at h ⊢
      by_cases h1 : c = "."
      · simp only [h1, if_true] at h ⊢
        exact ih cur s h hs
      · by_cases h2 : c = ".."
        · simp only [h1, h2, if_true, if_false] at h ⊢
          exact ih _ s h hs
        · simp only [h1, h2, if_false] at h ⊢
          cases hn : nodeAt fs (cur ++ [c]) with
          | none => simpa [hn] using h
          | some n =>
            cases n with
            | dir =>
              simp only [hn] at h ⊢
              exact ih _ s h hs
            | file x => simpa [hn] using h
            | symlink t =>
              simp only [hn] at h ⊢
              by_cases hr : rest = []
              · simp [hr] at h
                exact absurd h.symm (hs _ _)
              · simpa [hr] using h

/-- A lookup that does not end on a symlink gives the same with the last
symlink followed. -/
theorem walk_follow (fs : List (Key × Node)) (F : Faults) :
    ∀ (fuel : Nat) (cur : Key) (comps : List String) (s : Step),
      walk fs F false fuel cur comps = s → (∀ k t, s ≠ .found k (.symlink t)) →
      walk fs F true fuel cur comps = s := by
  intro fuel
  induction fuel with
  | zero =>
    intro cur comps s h hs
    unfold walk at h ⊢
    cases hw : walkComps fs F false comps cur with
    | found k n =>
      rw [hw] at h
      simp only at h
      have := walkComps_follow fs F comps cur _ hw (by intro k2 t2 he; rw [he] at h; exact hs _ _ h.symm)
      rw [this]
      exact h
    | missing k =>
      rw [hw] at h
      have := walkComps_follow fs F comps cur _ hw (by intro k2 t2 he; cases he)
      rw [this]
      exact h
    | link d t r =>
      rw [hw] at h
      have := walkComps_follow fs F comps cur _ hw (by intro k2 t2 he; cases he)
      rw [this]
      exact h
    | fail e =>
      rw [hw] at h
      have := walkComps_follow fs F comps cur _ hw (by intro k2 t2 he; cases he)
      rw [this]
      exact h
  | succ fuel ih =>
    intro cur comps s h hs
    unfold walk at h ⊢
    cases hw : walkComps fs F false comps cur with
    | found k n =>
      rw [hw] at h
      simp only at h
      have := walkComps_follow fs F comps cur _ hw (by intro k2 t2 he; rw [he] at h; exact hs _ _ h.symm)
      rw [this]
      exact h
    | missing k =>
      rw [hw] at h
      have := walkComps_follow fs F comps cur _ hw (by intro k2 t2 he; cases he)
      rw [this]
      exact h
    | link d t r =>
      rw [hw] at h
      have := walkComps_follow fs F comps cur _ hw (by intro k2 t2 he; cases he)
      rw [this]
      simp only at h ⊢
      by_cases ht : t = ""
      · simpa [ht] using h
      · simp only [ht, if_false] at h ⊢
        exact ih _ _ s h hs
    | fail e =>
      rw [hw] at h
      have := walkComps_follow fs F comps cur _ hw (by intro k2 t2 he; cases he)
      rw [this]
      exact h

/-- Walking after an entry was made where there was none: the walk that
missed it finds it, and a walk up to a symlink is as before. -/
theorem walkComps_created (fs fs2 : List (Key × Node)) (F : Faults) (fl : Bool) (k : Key)
    (n : Node) (hag : ∀ q, q ≠ k → nodeAt fs2 q = nodeAt fs q) (hnone : nodeAt fs k = none)
    (hnew : nodeAt fs2 k = some n) (hn : n.isSymlink = false) :
    ∀ (comps : List String) (cur : Key),
      (walkComps fs F fl comps cur = .missing k → walkComps fs2 F fl comps cur = .found k n) ∧
      (∀ d t r, walkComps fs F fl comps cur = .link d t r →
        walkComps fs2 F fl comps cur = .link d t r) := by
  intro comps
  induction comps with
  | nil =>
    intro cur
    simp [walkComps]
  | cons c rest ih =>
    intro cur
    unfold walkComps
    by_cases hf : F.search cur = true
    · simp [hf]
    · simp only [hf]
      by_cases h1 : c = "."
      · simp only [h1, if_true]
        exact ih cur
      · by_cases h2 : c = ".."
        · simp only [h1, h2, if_true, if_false]
          exact ih _
        · simp only [h1, h2, if_false]
          cases hnode : nodeAt fs (cur ++ [c]) with
          | none =>
            by_cases hr : rest = []
            · subst hr
              simp only [if_true]
              constructor
              · intro hm
                have hk : cur ++ [c] = k := by injection hm
                rw [hk, hnew]
                cases n with
                | dir => simp [walkComps]
                | file x => simp
                | symlink t => simp [Node.isSymlink] at hn
              · intro d t r hl
                cases hl
            · simp [hr]
          | some m =>
            have hne : cur ++ [c] ≠ k := by
              intro hk
              rw [hk, hnone] at hnode
              cases hnode
            rw [hag _ hne, hnode]
            cases m with
            | dir => exact ih _
            | file x =>
              by_cases hr : rest = [] <;> simp [hr]
            | symlink t =>
              by_cases hr : rest = [] ∧ fl = false <;> simp [hr]

/-- Looking up after an entry was made where the lookup missed it. -/
theorem walk_created (fs fs2 : List (Key × Node)) (F : Faults) (fl : Bool) (k : Key)
    (n : Node) (hag : ∀ q, q ≠ k → nodeAt fs2 q = nodeAt fs q) (hnone : nodeAt fs k = none)
    (hnew : nodeAt fs2 k = some n) (hn : n.isSymlink = false) :
    ∀ (fuel : Nat) (cur : Key) (comps : List String),
      walk fs F fl fuel cur comps = .missing k → walk fs2 F fl fuel cur comps = .found k n := by
  intro fuel
  induction fuel with
  | zero =>
    intro cur comps h
    have hc := walkComps_created fs fs2 F fl k n hag hnone hnew hn comps cur
    unfold walk at h ⊢
    cases hw : walkComps fs F fl comps cur with
    | found k2 n2 => rw [hw] at h; cases h
    | missing k2 =>
      rw [hw] at h
      simp only at h
      injection h with hk
      subst hk
      rw [hc.1 hw]
    | link d t r => rw [hw] at h; cases h
    | fail e => rw [hw] at h; cases h
  | succ fuel ih =>
    intro cur comps h
    have hc := walkComps_created fs fs2 F fl k n hag hnone hnew hn comps cur
    unfold walk at h ⊢
    cases hw : walkComps fs F fl comps cur with
    | found k2 n2 => rw [hw] at h; cases h
    | missing k2 =>
      rw [hw] at h
      simp only at h
      injection h with hk
      subst hk
      rw [hc.1 hw]
    | link d t r =>
      rw [hw] at h
      rw [hc.2 d t r hw]
      simp only at h ⊢
      by_cases ht : t = ""
      · simp [ht] at h
      · simp only [ht, if_false] at h ⊢
        exact ih _ _ h
    | fail e => rw [hw] at h; cases h

/-- Walking after the contents of a file were changed: the walk that found
the file finds it with the new contents, and a walk up to a symlink is as
before. -/
theorem walkComps_rewritten (fs fs2 : List (Key × Node)) (F : Faults) (fl : Bool) (k : Key)
    (c c2 : String) (hag : ∀ q, q ≠ k → nodeAt fs2 q = nodeAt fs q)
    (hold : nodeAt fs k = some (.file c)) (hnew : nodeAt fs2 k = some (.file c2)) :
    ∀ (comps : List String) (cur : Key),
      (walkComps fs F fl comps cur = .found k (.file c) →
        walkComps fs2 F fl comps cur = .found k (.file c2)) ∧
      (∀ d t r, walkComps fs F fl comps cur = .link d t r →
        walkComps fs2 F fl comps cur = .link d t r) := by
  intro comps
  induction comps with
  | nil =>
    intro cur
    simp [walkComps]
  | cons a rest ih =>
    intro cur
    unfold walkComps
    by_cases hf : F.search cur = true
    · simp [hf]
    · simp only [hf]
      by_cases h1 : a = "."
      · simp only [h1, if_true]
        exact ih cur
      · by_cases h2 : a = ".."
        · simp only [h1, h2, if_true, if_false]
          exact ih _
        · simp only [h1, h2, if_false]
          by_cases hk : cur ++ [a] = k
          · rw [hk, hold, hnew]
            by_cases hr : rest = [] <;> simp [hr]
          · rw [hag _ hk]
            cases hnode : nodeAt fs (cur ++ [a]) with
            | none => by_cases hr : rest = [] <;> simp [hr]
            | some m =>
              cases m with
              | dir => exact ih _
              | file x =>
                by_cases hr : rest = []
                · simp only [hr, if_true]
                  constructor
                  · intro hfo
                    injection hfo with hk2 _
                    exact absurd hk2 hk
                  · intro d t r hl
                    cases hl
                · simp [hr]
              | symlink t =>
                by_cases hr : rest = [] ∧ fl = false <;> simp [hr]

/-- Looking up after the contents of the file found were changed. -/
theorem walk_rewritten (fs fs2 : List (Key × Node)) (F : Faults) (fl : Bool) (k : Key)
    (c c2 : String) (hag : ∀ q, q ≠ k → nodeAt fs2 q = nodeAt fs q)
    (hold : nodeAt fs k = some (.file c)) (hnew : nodeAt fs2 k = some (.file c2)) :
    ∀ (fuel : Nat) (cur : Key) (comps : List String),
      walk fs F fl fuel cur comps = .found k (.file c) →
      walk fs2 F fl fuel cur comps = .found k (.file c2) := by
  intro fuel
  induction fuel with
  | zero =>
    intro cur comps h
    have hc := walkComps_rewritten fs fs2 F fl k c c2 hag hold hnew comps cur
    unfold walk at h ⊢
    cases hw : walkComps fs F fl comps cur with
    | found k2 n2 =>
      rw [hw] at h
      simp only at h
      rw [h] at hw
      rw [hc.1 hw]
    | missing k2 => rw [hw] at h; cases h
    | link d t r => rw [hw] at h; cases h
    | fail e => rw [hw] at h; cases h
  | succ fuel ih =>
    intro cur comps h
    have hc := walkComps_rewritten fs fs2 F fl k c c2 hag hold hnew comps cur
    unfold walk at h ⊢
    cases hw : walkComps fs F fl comps cur with
    | found k2 n2 =>
      rw [hw] at h
      simp only at h
      rw [h] at hw
      rw [hc.1 hw]
    | missing k2 => rw [hw] at h; cases h
    | link d t r =>
      rw [hw] at h
      rw [hc.2 d t r hw]
      simp only at h ⊢
      by_cases ht : t = ""
      · simp [ht] at h
      · simp only [ht, if_false] at h ⊢
        exact ih _ _ h
    | fail e => rw [hw] at h; cases h

/-- Walking after a symlink was removed: the walk that ended on it misses it,
and a walk up to a symlink is as before or finds nothing. -/
theorem walkComps_unlinked (fs fs2 : List (Key × Node)) (F : Faults) (k : Key) (t0 : String)
    (hag : ∀ q, q ≠ k → nodeAt fs2 q = nodeAt fs q)
    (hold : nodeAt fs k = some (.symlink t0)) (hnew : nodeAt fs2 k = none) :
    ∀ (comps : List String) (cur : Key),
      (∀ t, walkComps fs F false comps cur = .found k (.symlink t) →
        walkComps fs2 F false comps cur = .missing k) ∧
      (∀ d t r, walkComps fs F false comps cur = .link d t r →
        walkComps fs2 F false comps cur = .link d t r ∨
          walkComps fs2 F false comps cur = .fail .notExist) := by
  intro comps
  induction comps with
  | nil =>
    intro cur
    simp [walkComps]
  | cons a rest ih =>
    intro cur
    unfold walkComps
    by_cases hf : F.search cur = true
    · simp [hf]
    · simp only [hf]
      by_cases h1 : a = "."
      · simp only [h1, if_true]
        exact ih cur
      · by_cases h2 : a = ".."
        · simp only [h1, h2, if_true, if_false]
          exact ih _
        · simp only [h1, h2, if_false]
          by_cases hk : cur ++ [a] = k
          · rw [hk, hold, hnew]
            by_cases hr : rest = [] <;> simp [hr]
          · rw [hag _ hk]
            cases hnode : nodeAt fs (cur ++ [a]) with
            | none => by_cases hr : rest = [] <;> simp [hr]
            | some m =>
              cases m with
              | dir => exact ih _
              | file x => by_cases hr : rest = [] <;> simp [hr]
              | symlink t =>
                by_cases hr : rest = []
                · simp only [hr, and_self, if_true]
                  constructor
                  · intro t2 hfo
                    injection hfo with hk2 _
                    exact absurd hk2 hk
                  · intro d t2 r hl
                    cases hl
                · simp [hr]

/-- Looking up after the symlink found was removed: it is missed, or the way
to it is gone. -/
theorem walk_unlinked (fs fs2 : List (Key × Node)) (F : Faults) (k : Key) (t0 : String)
    (hag : ∀ q, q ≠ k → nodeAt fs2 q = nodeAt fs q)
    (hold : nodeAt fs k = some (.symlink t0)) (hnew : nodeAt fs2 k = none) :
    ∀ (fuel : Nat) (cur : Key) (comps : List String) (t : String),
      walk fs F false fuel cur comps = .found k (.symlink t) →
      walk fs2 F false fuel cur comps = .missing k ∨
        walk fs2 F false fuel cur comps = .fail .notExist := by
  intro fuel
  induction fuel with
  | zero =>
    intro cur comps t h
    have hc := walkComps_unlinked fs fs2 F k t0 hag hold hnew comps cur
    unfold walk at h ⊢
    cases hw : walkComps fs F false comps cur with
    | found k2 n2 =>
      rw [hw] at h
      simp only at h
      rw [h] at hw
      rw [hc.1 t hw]
      exact Or.inl rfl
    | missing k2 => rw [hw] at h; cases h
    | link d t r => rw [hw] at h; cases h
    | fail e => rw [hw] at h; cases h
  | succ fuel ih =>
    intro cur comps t h
    have hc := walkComps_unlinked fs fs2 F k t0 hag hold hnew comps cur
    unfold walk at h ⊢
    cases hw : walkComps fs F false comps cur with
    | found k2 n2 =>
      rw [hw] at h
      simp only at h
      rw [h] at hw
      rw [hc.1 t hw]
      exact Or.inl rfl
    | missing k2 => rw [hw] at h; cases h
    | link d t2 r =>
      rw [hw] at h
      simp only at h
      rcases hc.2 d t2 r hw with h2 | h2
      · rw [h2]
        simp only
        by_cases ht : t2 = ""
        · simp [ht] at h
        · simp only [ht, if_false] at h ⊢
          exact ih _ _ t h
      · rw [h2]
        exact Or.inr rfl
    | fail e => rw [hw] at h; cases h

/-- A path that `Lstat` does not see as a symlink gives the same under
`Stat`. -/
theorem lookupPath_follow (w : World) (p : String) (s : Step)
    (h : lookupPath w false p = s) (hs : ∀ k t, s ≠ .found k (.symlink t)) :
    lookupPath w true p = s := by
  unfold lookupPath at h ⊢
  by_cases hp : p = ""
  · simpa [hp] using h
  · simp only [hp, if_false] at h ⊢
    exact walk_follow w.fs w.faults _ _ _ s h hs

/-- On a file or a directory, `Stat` answers as `Lstat` does. -/
theorem Stat_of_Lstat_ok (w : World) (p : String) (n : Node) (h : Lstat w p = .ok n)
    (hn : n.isSymlink = false) : Stat w p = .ok n := by
  unfold Lstat at h
  unfold Stat
  cases hs : lookupPath w false p with
  | found k m =>
    rw [hs] at h
    simp only [Step.toNode] at h
    injection h with hm
    subst hm
    rw [lookupPath_follow w p _ hs (by
      intro k2 t2 he
      injection he with _ h2
      rw [h2] at hn
      simp [Node.isSymlink] at hn)]
    rfl
  | missing k => rw [hs] at h; simp [Step.toNode] at h
  | link d t r => rw [hs] at h; simp [Step.toNode] at h
  | fail e => rw [hs] at h; simp [Step.toNode] at h

/-- Where `Lstat` gives an error, `Stat` gives the same. -/
theorem Stat_of_Lstat_error (w : World) (p : String) (e : OsError)
    (h : Lstat w p = .error e) : Stat w p = .error e := by
  unfold Lstat at h
  unfold Stat
  cases hs : lookupPath w false p with
  | found k m => rw [hs] at h; simp [Step.toNode] at h
  | missing k =>
    rw [lookupPath_follow w p _ hs (by intro k2 t2 he; cases he)]
    rw [hs] at h
    exact h
  | link d t r =>
    rw [lookupPath_follow w p _ hs (by intro k2 t2 he; cases he)]
    rw [hs] at h
    exact h
  | fail e2 =>
    rw [lookupPath_follow w p _ hs (by intro k2 t2 he; cases he)]
    rw [hs] at h
    exact h

/-- A path that missed an entry finds it once one that is no symlink is made
there. -/
theorem lookupPath_created (w w2 : World) (fl : Bool) (p : String) (k : Key) (n : Node)
    (h : lookupPath w fl p = .missing k) (hn : n.isSymlink = false)
    (hnone : nodeAt w.fs k = none)
    (hfs : w2.fs = fsSet w.fs k n) (hF : w2.faults = w.faults) (hcwd : w2.cwd = w.cwd) :
    lookupPath w2 fl p = .found k n := by
  have hk := ne_nil_of_nodeAt_none w.fs k hnone
  unfold lookupPath at h ⊢
  by_cases hp : p = ""
  · simp [hp] at h
  · simp only [hp, if_false] at h ⊢
    rw [hfs, hF, hcwd]
    apply walk_created w.fs (fsSet w.fs k n) w.faults fl k n ?_ hnone ?_ hn _ _ _ h
    · intro q hq
      rw [nodeAt_fsSet _ _ _ _ hk]
      simp [hq]
    · rw [nodeAt_fsSet _ _ _ _ hk]
      simp

/-- The walk that misses an entry has found nothing at its key. -/
theorem walkComps_missing_none (fs : List (Key × Node)) (F : Faults) (fl : Bool) (k : Key) :
    ∀ (comps : List String) (cur : Key),
      walkComps fs F fl comps cur = .missing k → nodeAt fs k = none := by
  intro comps
  induction comps with
  | nil => intro cur h; simp [walkComps] at h
  | cons a rest ih =>
    intro cur h
    unfold walkComps at h
    by_cases hf : F.search cur = true
    · simp [hf] at h
    · simp only [hf] at h
      by_cases h1 : a = "."
      · simp only [h1, if_true] at h
        exact ih cur h
      · by_cases h2 : a = ".."
        · simp only [h1, h2, if_true, if_false] at h
          exact ih _ h
        · simp only [h1, h2, if_false] at h
          cases hnode : nodeAt fs (cur ++ [a]) with
          | none =>
            rw [hnode] at h
            by_cases hr : rest = []
            · simp [hr] at h
              rw [← h]
              exact hnode
            · simp [hr] at h
          | some m =>
            rw [hnode] at h
            cases m with
            | dir => exact ih _ h
            | file x => by_cases hr : rest = [] <;> simp [hr] at h
            | symlink t => by_cases hr : rest = [] ∧ fl = false <;> simp [hr] at h

/-- The walk that finds a file or a symlink has it at its key. -/
theorem walkComps_found_node (fs : List (Key × Node)) (F : Faults) (fl : Bool) (k : Key)
    (n : Node) (hn : n ≠ .dir) :
    ∀ (comps : List String) (cur : Key),
      walkComps fs F fl comps cur = .found k n → nodeAt fs k = some n := by
  intro comps
  induction comps with
  | nil =>
    intro cur h
    simp [walkComps] at h
    exact absurd h.2.symm hn
  | cons a rest ih =>
    intro cur h
    unfold walkComps at h
    by_cases hf : F.search cur = true
    · simp [hf] at h
    · simp only [hf] at h
      by_cases h1 : a = "."
      · simp only [h1, if_true] at h
        exact ih cur h
      · by_cases h2 : a = ".."
        · simp only [h1, h2, if_true, if_false] at h
          exact ih _ h
        · simp only [h1, h2, if_false] at h
          cases hnode : nodeAt fs (cur ++ [a]) with
          | none =>
            rw [hnode] at h
            by_cases hr : rest = [] <;> simp [hr] at h
          | some m =>
            rw [hnode] at h
            cases m with
            | dir => exact ih _ h
            | file x =>
              by_cases hr : rest = []
              · simp [hr] at h
                rw [← h.1, ← h.2]
                exact hnode
              · simp [hr] at h
            | symlink t =>
              by_cases hr : rest = [] ∧ fl = false
              · simp [hr] at h
                rw [← h.1, ← h.2]
                exact hnode
              · simp [hr] at h

/-- The lookup that misses an entry has found nothing at its key. -/
theorem walk_missing_none (fs : List (Key × Node)) (F : Faults) (fl : Bool) (k : Key) :
    ∀ (fuel : Nat) (cur : Key) (comps : List String),
      walk fs F fl fuel cur comps = .missing k → nodeAt fs k = none := by
  intro fuel
  induction fuel with
  | zero =>
    intro cur comps h
    unfold walk at h
    cases hw : walkComps fs F fl comps cur with
    | found k2 n2 => rw [hw] at h; cases h
    | missing k2 =>
      rw [hw] at h
      simp only at h
      rw [h] at hw
      exact walkComps_missing_none fs F fl k comps cur hw
    | link d t r => rw [hw] at h; cases h
    | fail e => rw [hw] at h; cases h
  | succ fuel ih =>
    intro cur comps h
    unfold walk at h
    cases hw : walkComps fs F fl comps cur with
    | found k2 n2 => rw [hw] at h; cases h
    | missing k2 =>
      rw [hw] at h
      simp only at h
      rw [h] at hw
      exact walkComps_missing_none fs F fl k comps cur hw
    | link d t r =>
      rw [hw] at h
      simp only at h
      by_cases ht : t = ""
      · simp [ht] at h
      · simp only [ht, if_false] at h
        exact ih _ _ h
    | fail e => rw [hw] at h; cases h

/-- The lookup that finds a file or a symlink has it at its key. -/
theorem walk_found_node (fs : List (Key × Node)) (F : Faults) (fl : Bool) (k : Key)
    (n : Node) (hn : n ≠ .dir) :
    ∀ (fuel : Nat) (cur : Key) (comps : List String),
      walk fs F fl fuel cur comps = .found k n → nodeAt fs k = some n := by
  intro fuel
  induction fuel with
  | zero =>
    intro cur comps h
    unfold walk at h
    cases hw : walkComps fs F fl comps cur with
    | found k2 n2 =>
      rw [hw] at h
      simp only at h
      rw [h] at hw
      exact walkComps_found_node fs F fl k n hn comps cur hw
    | missing k2 => rw [hw] at h; cases h
    | link d t r => rw [hw] at h; cases h
    | fail e => rw [hw] at h; cases h
  | succ fuel ih =>
    intro cur comps h
    unfold walk at h
    cases hw : walkComps fs F fl comps cur with
    | found k2 n2 =>
      rw [hw] at h
      simp only at h
      rw [h] at hw
      exact walkComps_found_node fs F fl k n hn comps cur hw
    | missing k2 => rw [hw] at h; cases h
    | link d t r =>
      rw [hw] at h
      simp only at h
      by_cases ht : t = ""
      · simp [ht] at h
      · simp only [ht, if_false] at h
        exact ih _ _ h
    | fail e => rw [hw] at h; cases h

/-- A path that misses an entry: nothing is at the key. -/
theorem lookupPath_missing_none (w : World) (fl : Bool) (p : String) (k : Key)
    (h : lookupPath w fl p = .missing k) : nodeAt w.fs k = none := by
  unfold lookupPath at h
  by_cases hp : p = ""
  · simp [hp] at h
  · simp only [hp, if_false] at h
    exact walk_missing_none _ _ _ _ _ _ _ h

/-- A path that finds a file or a symlink: it is at the key. -/
theorem lookupPath_found_node (w : World) (fl : Bool) (p : String) (k : Key) (n : Node)
    (hn : n ≠ .dir) (h : lookupPath w fl p = .found k n) : nodeAt w.fs k = some n := by
  unfold lookupPath at h
  by_cases hp : p = ""
  · simp [hp] at h
  · simp only [hp, if_false] at h
    exact walk_found_node _ _ _ _ _ hn _ _ _ h

/-- After a successful `Mkdir` the path names a directory. -/
theorem Mkdir_Lstat (w w2 : World) (p : String) (h : Mkdir w p = .ok w2) :
    Lstat w2 p = .ok .dir := by
  unfold Mkdir at h
  cases hs : lookupPath w false p with
  | found k n => rw [hs] at h; simp at h
  | link d t r => rw [hs] at h; simp at h
  | fail e => rw [hs] at h; simp at h
  | missing k =>
    rw [hs] at h
    simp only at h
    by_cases hc : w.faults.create k = true
    · simp [hc] at h
    · simp only [hc] at h
      injection h with h
      subst h
      have hnone := lookupPath_missing_none w false p k hs
      unfold Lstat
      rw [lookupPath_created w (w.withFs (fsSet w.fs k .dir)) false p k .dir hs rfl hnone rfl rfl rfl]
      rfl

/-- After a successful `MkdirAll` on a path that was no symlink, the path
names a directory. -/
theorem MkdirAllAux_Lstat (fuel : Nat) (w w2 : World) (p : String)
    (h : MkdirAllAux fuel w p = .ok w2) (hplain : ∀ t, Lstat w p ≠ .ok (.symlink t)) :
    Lstat w2 p = .ok .dir := by
  cases fuel with
  | zero => simp [MkdirAllAux] at h
  | succ fuel =>
    unfold MkdirAllAux at h
    cases hst : Stat w p with
    | ok n =>
      rw [hst] at h
      simp only at h
      cases hd : n.IsDir with
      | false => simp [hd] at h
      | true =>
        simp [hd] at h
        subst h
        cases hl : Lstat w p with
        | error e =>
          rw [Stat_of_Lstat_error w p e hl] at hst
          cases hst
        | ok m =>
          cases m with
          | symlink t => exact absurd hl (hplain t)
          | file x =>
            rw [Stat_of_Lstat_ok w p _ hl rfl] at hst
            injection hst with hst
            subst hst
            simp [Node.IsDir] at hd
          | dir => rfl
    | error e =>
      rw [hst] at h
      simp only at h
      split at h
      · cases h
      · rename_i w1 hmade
        cases hmk : Mkdir w1 p with
        | ok w3 =>
          rw [hmk] at h
          simp only at h
          injection h with h
          subst h
          exact Mkdir_Lstat w1 _ p hmk
        | error e2 =>
          rw [hmk] at h
          simp only at h
          cases hl : Lstat w1 p with
          | error e3 => rw [hl] at h; simp at h
          | ok m =>
            rw [hl] at h
            simp only at h
            cases m with
            | dir =>
              simp [Node.IsDir] at h
              subst h
              exact hl
            | file x => simp [Node.IsDir] at h
            | symlink t => simp [Node.IsDir] at h

/-- After a successful `RemoveAll` of a path that named a symlink, the path
names nothing. -/
theorem RemoveAll_symlink (w w1 : World) (p t : String)
    (hl : Lstat w p = .ok (.symlink t)) (h : RemoveAll w p = .ok w1) :
    Lstat w1 p = .error .notExist := by
  unfold Lstat at hl
  cases hs : lookupPath w false p with
  | missing k => rw [hs] at hl; simp [Step.toNode] at hl
  | link d t2 r => rw [hs] at hl; simp [Step.toNode] at hl
  | fail e => rw [hs] at hl; simp [Step.toNode] at hl
  | found k n =>
    rw [hs] at hl
    simp only [Step.toNode] at hl
    injection hl with hn
    subst hn
    have hnode := lookupPath_found_node w false p k _ (by intro hc; cases hc) hs
    have hk := ne_nil_of_nodeAt_not_dir w.fs k _ hnode (by intro hc; cases hc)
    unfold RemoveAll at h
    by_cases hp : p = ""
    · simp [lookupPath, hp] at hs
    · simp only [hp, if_false] at h
      by_cases hd : endsWithDot p = true
      · simp [hd] at h
      · simp only [hd, hs, hk] at h
        by_cases hr : w.faults.remove k = true
        · simp [hr] at h
        · simp [hr, Node.IsDir] at h
          subst h
          have hw : walk (fsDelete w.fs k) w.faults false maxSymlinks
              (if isAbs p = true then [] else w.cwd) (pathComps p) = .missing k ∨
              walk (fsDelete w.fs k) w.faults false maxSymlinks
              (if isAbs p = true then [] else w.cwd) (pathComps p) = .fail .notExist := by
            apply walk_unlinked w.fs (fsDelete w.fs k) w.faults k t ?_ hnode ?_ _ _ _ t
            · simpa [lookupPath, hp] using hs
            · intro q hq
              rw [nodeAt_fsDelete _ _ _ hk]
              simp [hq]
            · rw [nodeAt_fsDelete _ _ _ hk]
              simp
          unfold Lstat lookupPath
          simp only [hp, if_false, World.withFs]
          rcases hw with hw | hw <;> rw [hw] <;> rfl

/-- Gathering the configuration does nothing but call the executable. -/
theorem configSnapshot_events (lib : JsonLib) (ip : YarnInstallProcess) (w : World)
    (workingDir : String) (ev : Event) (h : ev ∈ (configSnapshot lib ip w workingDir).events) :
    ∃ e, ev = .exec e := by
  unfold configSnapshot at h
  split at h
  · split at h <;> simp at h
  · simp only at h
    split at h <;> simp at h <;> exact ⟨_, h⟩



/-- A path that found a file finds it with the new contents once they were
changed. -/
theorem lookupPath_rewritten (w w2 : World) (fl : Bool) (p : String) (k : Key) (c c2 : String)
    (h : lookupPath w fl p = .found k (.file c))
    (hfs : w2.fs = fsSet w.fs k (.file c2)) (hF : w2.faults = w.faults) (hcwd : w2.cwd = w.cwd) :
    lookupPath w2 fl p = .found k (.file c2) := by
  have hnode := lookupPath_found_node w fl p k _ (by intro hc; cases hc) h
  have hk := ne_nil_of_nodeAt_not_dir w.fs k _ hnode (by intro hc; cases hc)
  unfold lookupPath at h ⊢
  by_cases hp : p = ""
  · simp [hp] at h
  · simp only [hp, if_false] at h ⊢
    rw [hfs, hF, hcwd]
    apply walk_rewritten w.fs (fsSet w.fs k (.file c2)) w.faults fl k c c2 ?_ hnode ?_ _ _ _ h
    · intro q hq
      rw [nodeAt_fsSet _ _ _ _ hk]
      simp [hq]
    · rw [nodeAt_fsSet _ _ _ _ hk]
      simp

/-- What a successful `CreateTemp` leaves: an empty file that its name leads
to, and one more handle. -/
theorem CreateTemp_ok (w w2 : World) (pattern : String) (file : File)
    (h : CreateTemp w "" pattern = .ok (file, w2)) :
    file.Name = tempName w "" pattern ∧
      lookupPath w2 false file.Name = .found file.key (.file "") ∧
      w2.handles = file.key :: w.handles := by
  unfold CreateTemp at h
  cases hs : lookupPath w false (tempName w "" pattern) with
  | found k n => simp [hs] at h
  | link d t r => simp [hs] at h
  | fail e => simp [hs] at h
  | missing k =>
    simp only [hs] at h
    by_cases hc : w.faults.create k = true
    · simp [hc] at h
    · simp only [hc] at h
      injection h with h
      injection h with h1 h2
      subst h1
      subst h2
      have hnone := lookupPath_missing_none w false _ k hs
      refine ⟨rfl, ?_, rfl⟩
      exact lookupPath_created w _ false _ k (.file "") hs rfl hnone rfl rfl rfl

/-- What a successful `Write` leaves: the data after what the file held. -/
theorem Write_ok (w w3 : World) (file : File) (data c : String)
    (hl : lookupPath w false file.Name = .found file.key (.file c))
    (h : Write w file data = .ok w3) :
    lookupPath w3 false file.Name = .found file.key (.file (c ++ data)) ∧
      w3.handles = w.handles := by
  have hnode := lookupPath_found_node w false _ _ _ (by intro hc; cases hc) hl
  unfold Write at h
  by_cases hf : w.faults.write file.key = true
  · simp [hf] at h
  · simp only [hf, hnode] at h
    injection h with h
    subst h
    refine ⟨?_, rfl⟩
    exact lookupPath_rewritten w _ false _ _ c _ hl rfl rfl rfl

/-- Reading a path that leads to a file gives its contents. -/
theorem ReadFile_file (w : World) (p : String) (k : Key) (c : String)
    (h : lookupPath w false p = .found k (.file c)) : ReadFile w p = .ok c := by
  have hl : Lstat w p = .ok (.file c) := by
    unfold Lstat
    rw [h]
    rfl
  unfold ReadFile
  rw [Stat_of_Lstat_ok w p _ hl rfl]

/-- Closing a file changes no lookup. -/
theorem lookupPath_Close (w : World) (file : File) (fl : Bool) (p : String) :
    lookupPath (Close w file) fl p = lookupPath w fl p := rfl

/-- Once `ShouldRun` has made its temporary file, the file stays and its
handle is closed again. -/
theorem ShouldRun_temp_kept (lib : JsonLib) (ip : YarnInstallProcess) (w : World)
    (workingDir name : String) (metadata : String → Option MetaValue)
    (h : Event.temp name ∈ (ShouldRun lib ip w workingDir metadata).events) :
    (∃ c, Lstat (ShouldRun lib ip w workingDir metadata).world name = .ok (.file c)) ∧
      (ShouldRun lib ip w workingDir metadata).world.handles =
        (configSnapshot lib ip w workingDir).world.handles := by
  have hcfg := configSnapshot_events lib ip w workingDir (.temp name)
  unfold ShouldRun at h ⊢
  cases hlock : Stat w (Join [workingDir, "yarn.lock"]) with
  | error e =>
    simp only [hlock] at h
    split at h <;> simp at h
  | ok info =>
    simp only [hlock] at h ⊢
    cases hc : (configSnapshot lib ip w workingDir).result with
    | error msg =>
      simp only [hc] at h
      obtain ⟨e, he⟩ := hcfg h
      cases he
    | ok cfg =>
      simp only [hc] at h ⊢
      cases ht : CreateTemp (configSnapshot lib ip w workingDir).world "" "config-file" with
      | error e =>
        simp only [ht] at h
        obtain ⟨e, he⟩ := hcfg h
        cases he
      | ok nw =>
        obtain ⟨file, w2⟩ := nw
        obtain ⟨-, hfs2, hh2⟩ := CreateTemp_ok _ _ _ _ ht
        simp only [ht] at h ⊢
        have hname : name = file.Name := by
          cases hw : Write w2 file
            (cfg ++ Getenv (configSnapshot lib ip w workingDir).world "NODE_ENV") with
          | error e =>
            simp only [hw] at h
            simp at h
            rcases h with h | h
            · obtain ⟨e, he⟩ := hcfg h
              cases he
            · exact h
          | ok w3 =>
            simp only [hw] at h
            have : Event.temp name ∈ (configSnapshot lib ip w workingDir).events ++
                [.temp file.Name] ++
                [.sum [Join [workingDir, "yarn.lock"], Join [workingDir, "package.json"],
                    file.Name]
                  ([Join [workingDir, "yarn.lock"], Join [workingDir, "package.json"],
                    file.Name].map (ReadFile w3))] := by
              split at h
              · exact h
              · split at h <;> exact h
            simp at this
            rcases this with h | h
            · obtain ⟨e, he⟩ := hcfg h
              cases he
            · exact h
        subst hname
        cases hw : Write w2 file
            (cfg ++ Getenv (configSnapshot lib ip w workingDir).world "NODE_ENV") with
        | error e =>
          refine ⟨⟨"", ?_⟩, ?_⟩
          · simp only [Lstat, lookupPath_Close, hfs2]
            rfl
          · simp [Close, hh2]
        | ok w3 =>
          obtain ⟨hfs3, hh3⟩ := Write_ok _ _ _ _ _ hfs2 hw
          simp only []
          have hl : ∀ w4 : World, w4 = Close w3 file →
              (∃ c, Lstat w4 file.Name = .ok (.file c)) ∧
                w4.handles = (configSnapshot lib ip w workingDir).world.handles := by
            intro w4 h4
            subst h4
            refine ⟨⟨"" ++ (cfg ++ Getenv (configSnapshot lib ip w workingDir).world "NODE_ENV"),
              ?_⟩, ?_⟩
            · simp only [Lstat, lookupPath_Close, hfs3]
              rfl
            · simp [Close, hh3, hh2]
          split
          · exact hl _ rfl
          · split <;> exact hl _ rfl

/-- The run of `ShouldRun` once the snapshot is written: the events, with
the paths and the contents handed to the summer. -/
theorem ShouldRun_events (lib : JsonLib) (ip : YarnInstallProcess) (w w2 w3 : World)
    (workingDir cfg : String) (file : File) (info : Node)
    (metadata : String → Option MetaValue)
    (hlock : Stat w (Join [workingDir, "yarn.lock"]) = .ok info)
    (hcfg : (configSnapshot lib ip w workingDir).result = .ok cfg)
    (htmp : CreateTemp (configSnapshot lib ip w workingDir).world "" "config-file" =
      .ok (file, w2))
    (hwrite : Write w2 file
      (cfg ++ Getenv (configSnapshot lib ip w workingDir).world "NODE_ENV") = .ok w3) :
    (ShouldRun lib ip w workingDir metadata).events =
        (configSnapshot lib ip w workingDir).events ++
          [.temp file.Name,
           .sum [Join [workingDir, "yarn.lock"], Join [workingDir, "package.json"], file.Name]
             [ReadFile w3 (Join [workingDir, "yarn.lock"]),
              ReadFile w3 (Join [workingDir, "package.json"]),
              .ok (cfg ++ Getenv (configSnapshot lib ip w workingDir).world "NODE_ENV")]] := by
  obtain ⟨-, hfs2, -⟩ := CreateTemp_ok _ _ _ _ htmp
  obtain ⟨hfs3, -⟩ := Write_ok _ _ _ _ _ hfs2 hwrite
  have hread := ReadFile_file w3 file.Name _ _ hfs3
  unfold ShouldRun
  simp only [hlock, hcfg, htmp, hwrite]
  have hev : ∀ ev : List Event, ev = (configSnapshot lib ip w workingDir).events ++
      [.temp file.Name] ++
      [.sum [Join [workingDir, "yarn.lock"], Join [workingDir, "package.json"], file.Name]
        ([Join [workingDir, "yarn.lock"], Join [workingDir, "package.json"], file.Name].map
          (ReadFile w3))] →
      ev = (configSnapshot lib ip w workingDir).events ++
          [.temp file.Name,
           .sum [Join [workingDir, "yarn.lock"], Join [workingDir, "package.json"], file.Name]
             [ReadFile w3 (Join [workingDir, "yarn.lock"]),
              ReadFile w3 (Join [workingDir, "package.json"]),
              .ok (cfg ++ Getenv (configSnapshot lib ip w workingDir).world "NODE_ENV")]] := by
    intro ev hev
    rw [hev]
    simp [hread]
  split
  · exact hev _ rfl
  · split <;> exact hev _ rfl

/-- The calls of `Execute`: the mirror query for a Classic project, and the
install call with the arguments and the environment of the rule table, the
offline flag as `Execute` computes it. -/
theorem Execute_events (lib : JsonLib) (ip : YarnInstallProcess) (w : World)
    (workingDir modulesLayerPath : String) (launch : Bool) :
    (∀ e, Event.exec e ∈ (Execute lib ip w workingDir modulesLayerPath launch).events →
      (isYarnBerry lib w workingDir = false ∧ e = mirrorQuery w workingDir) ∨
        e = ruleTableInstall w workingDir (isYarnBerry lib w workingDir) launch
          (offlineFlag lib ip w workingDir)) ∧
    ((isYarnBerry lib w workingDir = false →
        (ip.executable (mirrorQuery w workingDir) w).err = none) →
      (∀ errno, offlineStat lib ip w workingDir ≠ .error (.other errno)) →
      Event.exec (ruleTableInstall w workingDir (isYarnBerry lib w workingDir) launch
          (offlineFlag lib ip w workingDir)) ∈
        (Execute lib ip w workingDir modulesLayerPath launch).events) := by
  cases hb : isYarnBerry lib w workingDir with
  | true =>
    cases hs : Stat w (Join [workingDir, ".yarn", "cache"]) with
    | ok info =>
      cases hd : info.IsDir <;> cases launch <;>
        simp [Execute, ruleTableInstall, offlineFlag, offlineStat, hb, hs, hd, ruleTableArgs,
          ruleTableEnv, baseEnvironment] <;>
        split <;> simp <;> (intro a; split <;> simp)
    | error err =>
      cases err with
      | notExist =>
        cases launch <;>
          simp [Execute, ruleTableInstall, offlineFlag, offlineStat, hb, hs,
            OsError.isNotExist, ruleTableArgs, ruleTableEnv, baseEnvironment] <;>
          split <;> simp <;> (intro a; split <;> simp)
      | other errno =>
        cases launch <;>
          simp [Execute, ruleTableInstall, offlineFlag, offlineStat, hb, hs,
            OsError.isNotExist, ruleTableArgs, ruleTableEnv, baseEnvironment]
  | false =>
    have hq : (⟨["config", "get", "yarn-offline-mirror"],
        Environ w ++ ["PATH=" ++ Getenv w "PATH" ++ String.singleton PathListSeparator ++
          Join ["node_modules", ".bin"]], workingDir⟩ : Execution) =
        mirrorQuery w workingDir := rfl
    cases he : (ip.executable (mirrorQuery w workingDir) w).err with
    | some err =>
      simp [Execute, hb, hq, he]
    | none =>
      cases hs : Stat (ip.executable (mirrorQuery w workingDir) w).world
          (offlineMirrorDir (ip.executable (mirrorQuery w workingDir) w).output) with
      | ok info =>
        cases hd : info.IsDir <;> cases launch <;>
          simp [Execute, ruleTableInstall, offlineFlag, offlineStat, hb, hq, he, hs, hd,
            ruleTableArgs, ruleTableEnv] <;>
          split <;> simp [baseEnvironment] <;> (intro a; split <;> simp)
      | error err =>
        cases err with
        | notExist =>
          cases launch <;>
            simp [Execute, ruleTableInstall, offlineFlag, offlineStat, hb, hq, he, hs,
              OsError.isNotExist, ruleTableArgs, ruleTableEnv] <;>
            split <;> simp [baseEnvironment] <;> (intro a; split <;> simp)
        | other errno =>
          cases launch <;>
            simp [Execute, ruleTableInstall, offlineFlag, offlineStat, hb, hq, he, hs,
              OsError.isNotExist, ruleTableArgs, ruleTableEnv]

/-- The loop of `Execute` finds the directory the specification reads from
the output. -/
theorem offlineMirrorDir_of_queried (output dir : String) (h : IsQueriedMirror output dir) :
    offlineMirrorDir output = dir := by
  obtain ⟨pre, line, post, hsplit, hpre, hline, hdir⟩ := h
  have hfind : (SplitLines output).find? (fun l => HasPrefix (TrimSpace l) "/") = some line := by
    rw [List.find?_eq_some]
    refine ⟨hline, pre, post, hsplit, ?_⟩
    intro a ha
    simp [hpre a ha]
  unfold offlineMirrorDir
  rw [hfind, hdir]

/-- What the loop of `Execute` finds is empty or the directory the
specification reads from the output. -/
theorem queried_of_offlineMirrorDir (output : String) :
    (offlineMirrorDir output = "" ∧ ∀ dir, ¬ IsQueriedMirror output dir) ∨
      IsQueriedMirror output (offlineMirrorDir output) := by
  unfold offlineMirrorDir
  cases hfind : (SplitLines output).find? (fun l => HasPrefix (TrimSpace l) "/") with
  | none =>
    left
    refine ⟨rfl, ?_⟩
    intro dir hq
    have := offlineMirrorDir_of_queried output dir hq
    obtain ⟨pre, line, post, hsplit, hpre, hline, hdir⟩ := hq
    rw [List.find?_eq_none] at hfind
    have hmem : line ∈ SplitLines output := by
      rw [hsplit]
      simp
    have := hfind line hmem
    simp [hline] at this
  | some line =>
    right
    rw [List.find?_eq_some] at hfind
    obtain ⟨hline, pre, post, hsplit, hpre⟩ := hfind
    refine ⟨pre, line, post, hsplit, ?_, hline, rfl⟩
    intro l hl
    have := hpre l hl
    simpa using this

/-- The empty path leads nowhere. -/
theorem Stat_empty (w : World) : Stat w "" = .error .notExist := by
  simp [Stat, lookupPath, Step.toNode]

/-- The node of a directory is `dir`. -/
theorem eq_dir_of_IsDir (n : Node) (h : n.IsDir = true) : n = .dir := by
  cases n <;> simp [Node.IsDir] at h ⊢

/-- The flag `Execute` computes is the offline evidence of the
specification. -/
theorem offlineFlag_iff (lib : JsonLib) (ip : YarnInstallProcess) (w : World)
    (workingDir : String) :
    offlineFlag lib ip w workingDir = true ↔ OfflineEvidence lib ip w workingDir := by
  unfold offlineFlag offlineStat OfflineEvidence
  cases hb : isYarnBerry lib w workingDir with
  | true =>
    simp only [if_true, true_and, Bool.true_eq_false, false_and, or_false]
    cases hs : Stat w (Join [workingDir, ".yarn", "cache"]) with
    | error e => simp
    | ok info =>
      simp only
      constructor
      · intro h
        rw [eq_dir_of_IsDir info h]
      · intro h
        injection h with h
        rw [h]
        rfl
  | false =>
    simp only [Bool.false_eq_true, if_false, false_and, true_and, false_or]
    constructor
    · intro h
      rcases queried_of_offlineMirrorDir (ip.executable (mirrorQuery w workingDir) w).output with
        ⟨hempty, -⟩ | hq
      · rw [hempty, Stat_empty] at h
        simp at h
      · refine ⟨_, hq, ?_⟩
        cases hs : Stat (ip.executable (mirrorQuery w workingDir) w).world
            (offlineMirrorDir (ip.executable (mirrorQuery w workingDir) w).output) with
        | error e => rw [hs] at h; simp at h
        | ok info =>
          rw [hs] at h
          simp only at h
          rw [eq_dir_of_IsDir info h]
    · rintro ⟨dir, hq, hs⟩
      rw [offlineMirrorDir_of_queried _ _ hq, hs]
      rfl

/-- The `os.Stat` of `Execute` for the offline decision fails exactly when the
specification says the directory cannot be looked at. -/
theorem offlineStat_fails_iff (lib : JsonLib) (ip : YarnInstallProcess) (w : World)
    (workingDir : String) :
    (∃ errno, offlineStat lib ip w workingDir = .error (.other errno)) ↔
      OfflineStatFails lib ip w workingDir := by
  unfold offlineStat OfflineStatFails
  cases hb : isYarnBerry lib w workingDir with
  | true => simp
  | false =>
    simp only [Bool.false_eq_true, if_false, false_and, true_and, false_or]
    constructor
    · rintro ⟨errno, h⟩
      rcases queried_of_offlineMirrorDir (ip.executable (mirrorQuery w workingDir) w).output with
        ⟨hempty, -⟩ | hq
      · rw [hempty, Stat_empty] at h
        cases h
      · exact ⟨_, errno, hq, h⟩
    · rintro ⟨dir, errno, hq, hs⟩
      rw [offlineMirrorDir_of_queried _ _ hq]
      exact ⟨errno, hs⟩

/-! ## The properties -/

/-- C1: when `yarn.lock` is found, the configuration is gathered, the snapshot
is written to the temporary file and the summer returns the digest `s`,
`ShouldRun` returns `run = false` (with an empty fingerprint) exactly when the
metadata holds the string `s` under `cache_sha`; in every other case (no
`cache_sha`, not a string, another string) it returns `run = true` together
with `s`; in neither case an error. -/
theorem ShouldRun_compares_fingerprint (lib : JsonLib) (ip : YarnInstallProcess)
    (w w2 w3 : World) (workingDir cfg s : String) (file : File) (info : Node)
    (metadata : String → Option MetaValue)
    (hlock : Stat w (Join [workingDir, "yarn.lock"]) = .ok info)
    (hcfg : (configSnapshot lib ip w workingDir).result = .ok cfg)
    (htmp : CreateTemp (configSnapshot lib ip w workingDir).world "" "config-file" =
      .ok (file, w2))
    (hwrite : Write w2 file
      (cfg ++ Getenv (configSnapshot lib ip w workingDir).world "NODE_ENV") = .ok w3)
    (hsum : ip.summer
      [Join [workingDir, "yarn.lock"], Join [workingDir, "package.json"], file.Name] w3 =
        .ok s) :
    (ShouldRun lib ip w workingDir metadata).result =
      .returned (if metadata "cache_sha" = some (.str s) then ⟨false, "", none⟩
                 else ⟨true, s, none⟩) := by
  unfold ShouldRun
  simp only [hlock, hcfg, htmp, hwrite, hsum]
  cases hm : metadata "cache_sha" with
  | none => simp [assertString]
  | some mv =>
    cases mv with
    | str p =>
      by_cases hp : p = s
      · subst hp; simp [assertString]
      · have hp2 : ¬ s = p := fun h => hp h.symm
        simp [assertString, hp, hp2]
    | int i => simp [assertString]
    | bool b => simp [assertString]
    | other t => simp [assertString]

/-- The Berry project with the matching `cache_sha` in its metadata: no run. -/
theorem ShouldRun_compares_fingerprint_witness :
    (ShouldRun sampleLib sampleProcess berryWorld "/workspace"
      (metadataOf [("cache_sha", .str "lock\x7b\x7dnodeLinker: pnp\ntest")])).result =
      .returned (if metadataOf [("cache_sha", .str "lock\x7b\x7dnodeLinker: pnp\ntest")] "cache_sha" =
          some (.str "lock\x7b\x7dnodeLinker: pnp\ntest") then ⟨false, "", none⟩
        else ⟨true, "lock\x7b\x7dnodeLinker: pnp\ntest", none⟩) :=
  ShouldRun_compares_fingerprint sampleLib sampleProcess berryWorld (withTemp berryWorld)
    (withSnapshot berryWorld "nodeLinker: pnp\ntest") "/workspace" "nodeLinker: pnp\n"
    "lock\x7b\x7dnodeLinker: pnp\ntest" sampleTemp (.file "lock") _ (by decide) (by decide)
    (by rfl) (by rfl) (by decide)

/-- C2: in a working directory without `yarn.lock`, whatever the metadata,
`ShouldRun` returns `run = true` with an empty fingerprint and no error; it
calls neither the external tool nor the summer, and leaves the world as it
was. -/
theorem ShouldRun_without_lockfile (lib : JsonLib) (ip : YarnInstallProcess) (w : World)
    (workingDir : String) (metadata : String → Option MetaValue)
    (h : Stat w (Join [workingDir, "yarn.lock"]) = .error .notExist) :
    (ShouldRun lib ip w workingDir metadata).result = .returned ⟨true, "", none⟩ ∧
      (ShouldRun lib ip w workingDir metadata).events = [] ∧
      (ShouldRun lib ip w workingDir metadata).world = w := by
  simp [ShouldRun, h, OsError.isNotExist]

/-- A project without `yarn.lock` and a `cache_sha` in the metadata. -/
theorem ShouldRun_without_lockfile_witness :
    (ShouldRun sampleLib sampleProcess unlockedWorld "/workspace"
        (metadataOf [("cache_sha", .str "abc")])).result = .returned ⟨true, "", none⟩ ∧
      (ShouldRun sampleLib sampleProcess unlockedWorld "/workspace"
        (metadataOf [("cache_sha", .str "abc")])).events = [] ∧
      (ShouldRun sampleLib sampleProcess unlockedWorld "/workspace"
        (metadataOf [("cache_sha", .str "abc")])).world = unlockedWorld :=
  ShouldRun_without_lockfile sampleLib sampleProcess unlockedWorld "/workspace" _ (by decide)

/-- C3, as amended: `ShouldRun` hands to the summer the paths of the lockfile,
of the manifest and of the snapshot file, whose contents then are what
`yarn.lock` holds, what `package.json` holds, and the configuration text
followed by the value of `NODE_ENV` with nothing in between.  Two runs that
reach the summer have the same inputs exactly when lockfile contents,
manifest contents and that concatenation agree; so runs that differ in the
lockfile, in the manifest, or in exactly one of configuration text and
`NODE_ENV` have different inputs. -/
theorem ShouldRun_digest_inputs_separate (lib₁ lib₂ : JsonLib) (ip₁ ip₂ : YarnInstallProcess)
    (w₁ w₂ t₁ t₂ v₁ v₂ : World) (dir₁ dir₂ cfg₁ cfg₂ : String) (file₁ file₂ : File)
    (info₁ info₂ : Node) (md₁ md₂ : String → Option MetaValue)
    (hlock₁ : Stat w₁ (Join [dir₁, "yarn.lock"]) = .ok info₁)
    (hcfg₁ : (configSnapshot lib₁ ip₁ w₁ dir₁).result = .ok cfg₁)
    (htmp₁ : CreateTemp (configSnapshot lib₁ ip₁ w₁ dir₁).world "" "config-file" =
      .ok (file₁, t₁))
    (hwrite₁ : Write t₁ file₁
      (cfg₁ ++ Getenv (configSnapshot lib₁ ip₁ w₁ dir₁).world "NODE_ENV") = .ok v₁)
    (hlock₂ : Stat w₂ (Join [dir₂, "yarn.lock"]) = .ok info₂)
    (hcfg₂ : (configSnapshot lib₂ ip₂ w₂ dir₂).result = .ok cfg₂)
    (htmp₂ : CreateTemp (configSnapshot lib₂ ip₂ w₂ dir₂).world "" "config-file" =
      .ok (file₂, t₂))
    (hwrite₂ : Write t₂ file₂
      (cfg₂ ++ Getenv (configSnapshot lib₂ ip₂ w₂ dir₂).world "NODE_ENV") = .ok v₂) :
    (ShouldRun lib₁ ip₁ w₁ dir₁ md₁).events =
        (configSnapshot lib₁ ip₁ w₁ dir₁).events ++
          [.temp file₁.Name,
           .sum (digestPaths dir₁ file₁) (digestInputs v₁ dir₁
             (cfg₁ ++ Getenv (configSnapshot lib₁ ip₁ w₁ dir₁).world "NODE_ENV"))] ∧
      (ShouldRun lib₂ ip₂ w₂ dir₂ md₂).events =
        (configSnapshot lib₂ ip₂ w₂ dir₂).events ++
          [.temp file₂.Name,
           .sum (digestPaths dir₂ file₂) (digestInputs v₂ dir₂
             (cfg₂ ++ Getenv (configSnapshot lib₂ ip₂ w₂ dir₂).world "NODE_ENV"))] ∧
      ReadFile v₁ file₁.Name =
        .ok (cfg₁ ++ Getenv (configSnapshot lib₁ ip₁ w₁ dir₁).world "NODE_ENV") ∧
      ReadFile v₂ file₂.Name =
        .ok (cfg₂ ++ Getenv (configSnapshot lib₂ ip₂ w₂ dir₂).world "NODE_ENV") ∧
      (digestInputs v₁ dir₁ (cfg₁ ++ Getenv (configSnapshot lib₁ ip₁ w₁ dir₁).world "NODE_ENV") =
          digestInputs v₂ dir₂
            (cfg₂ ++ Getenv (configSnapshot lib₂ ip₂ w₂ dir₂).world "NODE_ENV") ↔
        ReadFile v₁ (Join [dir₁, "yarn.lock"]) = ReadFile v₂ (Join [dir₂, "yarn.lock"]) ∧
          ReadFile v₁ (Join [dir₁, "package.json"]) =
            ReadFile v₂ (Join [dir₂, "package.json"]) ∧
          cfg₁ ++ Getenv (configSnapshot lib₁ ip₁ w₁ dir₁).world "NODE_ENV" =
            cfg₂ ++ Getenv (configSnapshot lib₂ ip₂ w₂ dir₂).world "NODE_ENV") ∧
      (ReadFile v₁ (Join [dir₁, "yarn.lock"]) ≠ ReadFile v₂ (Join [dir₂, "yarn.lock"]) ∨
        ReadFile v₁ (Join [dir₁, "package.json"]) ≠
          ReadFile v₂ (Join [dir₂, "package.json"]) ∨
        (cfg₁ = cfg₂ ∧ Getenv (configSnapshot lib₁ ip₁ w₁ dir₁).world "NODE_ENV" ≠
          Getenv (configSnapshot lib₂ ip₂ w₂ dir₂).world "NODE_ENV") ∨
        (cfg₁ ≠ cfg₂ ∧ Getenv (configSnapshot lib₁ ip₁ w₁ dir₁).world "NODE_ENV" =
          Getenv (configSnapshot lib₂ ip₂ w₂ dir₂).world "NODE_ENV") →
        digestInputs v₁ dir₁
            (cfg₁ ++ Getenv (configSnapshot lib₁ ip₁ w₁ dir₁).world "NODE_ENV") ≠
          digestInputs v₂ dir₂
            (cfg₂ ++ Getenv (configSnapshot lib₂ ip₂ w₂ dir₂).world "NODE_ENV")) := by
  have hiff : digestInputs v₁ dir₁
        (cfg₁ ++ Getenv (configSnapshot lib₁ ip₁ w₁ dir₁).world "NODE_ENV") =
      digestInputs v₂ dir₂
        (cfg₂ ++ Getenv (configSnapshot lib₂ ip₂ w₂ dir₂).world "NODE_ENV") ↔
      ReadFile v₁ (Join [dir₁, "yarn.lock"]) = ReadFile v₂ (Join [dir₂, "yarn.lock"]) ∧
        ReadFile v₁ (Join [dir₁, "package.json"]) = ReadFile v₂ (Join [dir₂, "package.json"]) ∧
        cfg₁ ++ Getenv (configSnapshot lib₁ ip₁ w₁ dir₁).world "NODE_ENV" =
          cfg₂ ++ Getenv (configSnapshot lib₂ ip₂ w₂ dir₂).world "NODE_ENV" := by
    simp only [digestInputs, List.cons.injEq, Except.ok.injEq, and_true]
  have hread₁ : ReadFile v₁ file₁.Name =
      .ok (cfg₁ ++ Getenv (configSnapshot lib₁ ip₁ w₁ dir₁).world "NODE_ENV") := by
    obtain ⟨-, hfs, -⟩ := CreateTemp_ok _ _ _ _ htmp₁
    obtain ⟨hfs3, -⟩ := Write_ok _ _ _ _ _ hfs hwrite₁
    rw [ReadFile_file v₁ file₁.Name _ _ hfs3]
    simp
  have hread₂ : ReadFile v₂ file₂.Name =
      .ok (cfg₂ ++ Getenv (configSnapshot lib₂ ip₂ w₂ dir₂).world "NODE_ENV") := by
    obtain ⟨-, hfs, -⟩ := CreateTemp_ok _ _ _ _ htmp₂
    obtain ⟨hfs3, -⟩ := Write_ok _ _ _ _ _ hfs hwrite₂
    rw [ReadFile_file v₂ file₂.Name _ _ hfs3]
    simp
  refine ⟨ShouldRun_events lib₁ ip₁ w₁ t₁ v₁ dir₁ cfg₁ file₁ info₁ md₁ hlock₁ hcfg₁ htmp₁ hwrite₁,
    ShouldRun_events lib₂ ip₂ w₂ t₂ v₂ dir₂ cfg₂ file₂ info₂ md₂ hlock₂ hcfg₂ htmp₂ hwrite₂,
    hread₁, hread₂, hiff, ?_⟩
  intro hd heq
  obtain ⟨hl, hm, hs⟩ := hiff.mp heq
  have hdata := congrArg String.data hs
  simp only [String.data_append] at hdata
  rcases hd with hd | hd | ⟨hceq, hne⟩ | ⟨hcne, heqv⟩
  · exact hd hl
  · exact hd hm
  · subst hceq
    exact hne (String.ext (List.append_cancel_left hdata))
  · rw [heqv] at hdata
    exact hcne (String.ext (List.append_cancel_right hdata))

/-- The Berry project built with `NODE_ENV=test` and with
`NODE_ENV=production`: the summer gets lockfile, manifest and snapshot, and
the inputs of the two builds differ. -/
theorem ShouldRun_digest_inputs_separate_witness :
    (ShouldRun sampleLib sampleProcess berryWorld "/workspace" (metadataOf [])).events =
        [.temp "/tmp/config-file123",
         .sum ["/workspace/yarn.lock", "/workspace/package.json", "/tmp/config-file123"]
           [.ok "lock", .ok manifestPlain, .ok "nodeLinker: pnp\ntest"]] ∧
      digestInputs (withSnapshot berryWorld "nodeLinker: pnp\ntest") "/workspace"
          ("nodeLinker: pnp\n" ++
            Getenv (configSnapshot sampleLib sampleProcess berryWorld "/workspace").world
              "NODE_ENV") ≠
        digestInputs (withSnapshot berryWorldProduction "nodeLinker: pnp\nproduction")
          "/workspace"
          ("nodeLinker: pnp\n" ++
            Getenv (configSnapshot sampleLib sampleProcess berryWorldProduction
              "/workspace").world "NODE_ENV") :=
  have h := ShouldRun_digest_inputs_separate sampleLib sampleLib sampleProcess sampleProcess
    berryWorld berryWorldProduction (withTemp berryWorld) (withTemp berryWorldProduction)
    (withSnapshot berryWorld "nodeLinker: pnp\ntest")
    (withSnapshot berryWorldProduction "nodeLinker: pnp\nproduction")
    "/workspace" "/workspace" "nodeLinker: pnp\n" "nodeLinker: pnp\n" sampleTemp sampleTemp
    (.file "lock") (.file "lock") (metadataOf []) (metadataOf [])
    (by decide) (by decide) (by rfl) (by rfl) (by decide) (by decide) (by rfl) (by rfl)
  ⟨h.1.trans (by decide), h.2.2.2.2.2 (Or.inr (Or.inr (Or.inl ⟨rfl, by decide⟩)))⟩

/-- C3, the claim as written fails: two builds of the same project that differ
in both the configuration text and the value of `NODE_ENV` hand the same
paths with the same contents to the summer, and get the same fingerprint. -/
theorem ShouldRun_snapshot_collision :
    (configSnapshot sampleLib sampleProcess berryWorld "/workspace").result =
        .ok "nodeLinker: pnp\n" ∧
      Getenv berryWorld "NODE_ENV" = "test" ∧
      (configSnapshot sampleLib sampleProcess berryWorldShifted "/workspace").result =
        .ok "nodeLinker: pnp\nte" ∧
      Getenv berryWorldShifted "NODE_ENV" = "st" ∧
      (ShouldRun sampleLib sampleProcess berryWorld "/workspace" (metadataOf [])).events =
        [.temp "/tmp/config-file123",
         .sum ["/workspace/yarn.lock", "/workspace/package.json", "/tmp/config-file123"]
           [.ok "lock", .ok manifestPlain, .ok "nodeLinker: pnp\ntest"]] ∧
      (ShouldRun sampleLib sampleProcess berryWorldShifted "/workspace" (metadataOf [])).events =
        (ShouldRun sampleLib sampleProcess berryWorld "/workspace" (metadataOf [])).events ∧
      (ShouldRun sampleLib sampleProcess berryWorldShifted "/workspace" (metadataOf [])).result =
        (ShouldRun sampleLib sampleProcess berryWorld "/workspace" (metadataOf [])).result := by
  decide

/-- C4: `isYarnBerry` is a total function with three kinds of evidence tried in
order; it answers Berry (Modern) exactly when `os.Stat` finds `.yarnrc.yml`,
or finds a directory at `.yarn`, or `package.json` can be read and decoded
and its `packageManager` begins with `yarn@`, whatever follows the `@`;
otherwise it answers Classic.  So a project with `.yarnrc.yml` and a pin
`yarn@1.22.0` is Berry, and a project with no evidence is Classic. -/
theorem isYarnBerry_classifies (lib : JsonLib) (w : World) (workingDir : String) :
    (isYarnBerry lib w workingDir = true ↔
      ((∃ info, Stat w (Join [workingDir, ".yarnrc.yml"]) = .ok info) ∨
        Stat w (Join [workingDir, ".yarn"]) = .ok .dir ∨
        ∃ data pkg, ReadFile w (Join [workingDir, "package.json"]) = .ok data ∧
          UnmarshalPin lib data = some pkg ∧ HasPrefix pkg.PackageManager "yarn@" = true)) ∧
    (isYarnBerry lib w workingDir = false ↔
      ((∀ info, Stat w (Join [workingDir, ".yarnrc.yml"]) ≠ .ok info) ∧
        Stat w (Join [workingDir, ".yarn"]) ≠ .ok .dir ∧
        ∀ data pkg, ReadFile w (Join [workingDir, "package.json"]) = .ok data →
          UnmarshalPin lib data = some pkg → HasPrefix pkg.PackageManager "yarn@" = false)) := by
  have h := isYarnBerry_eq_true_iff lib w workingDir
  refine ⟨h, ?_⟩
  rw [← Bool.not_eq_true, h]
  simp only [not_or, not_exists, not_and, Bool.not_eq_true, ne_eq]


/-- C5: the install call of `Execute` is the one of the rule table, for both
variants, both phases and both answers about offline evidence.  Let `offline`
say whether there is offline evidence as the specification words it: for
Berry `.yarn/cache` exists and is a directory, for Classic the first line of
the query output that begins with `/` once trimmed names a directory.  Then
every call `Execute` makes with `install` as first argument is the call of
the table (arguments, environment overlay with `NODE_ENV=development` exactly
for Berry outside the launch phase, working directory); and the call is made
whenever the mirror query of a Classic project does not fail and the
`os.Stat` of the offline directory gives no error other than not-exist. -/
theorem Execute_install_follows_rule_table (lib : JsonLib) (ip : YarnInstallProcess) (w : World)
    (workingDir modulesLayerPath : String) (launch offline : Bool)
    (hoff : offline = true ↔ OfflineEvidence lib ip w workingDir) :
    (∀ e, Event.exec e ∈ (Execute lib ip w workingDir modulesLayerPath launch).events →
      e.Args.head? = some "install" →
      e = ruleTableInstall w workingDir (isYarnBerry lib w workingDir) launch offline) ∧
    ((isYarnBerry lib w workingDir = false →
        (ip.executable (mirrorQuery w workingDir) w).err = none) →
      ¬ OfflineStatFails lib ip w workingDir →
      Event.exec (ruleTableInstall w workingDir (isYarnBerry lib w workingDir) launch offline) ∈
        (Execute lib ip w workingDir modulesLayerPath launch).events) := by
  have hflag : offlineFlag lib ip w workingDir = offline := by
    have h1 := offlineFlag_iff lib ip w workingDir
    cases hf : offlineFlag lib ip w workingDir <;> cases ho : offline <;> simp_all
  obtain ⟨hall, hreach⟩ := Execute_events lib ip w workingDir modulesLayerPath launch
  rw [hflag] at hall hreach
  refine ⟨?_, ?_⟩
  · intro e he hhead
    rcases hall e he with ⟨-, hq⟩ | hi
    · rw [hq] at hhead
      simp [mirrorQuery] at hhead
    · exact hi
  · intro hquery hstat
    apply hreach hquery
    intro errno herr
    exact hstat ((offlineStat_fails_iff lib ip w workingDir).mp ⟨errno, herr⟩)

/-- The Classic project in the build phase, with a query output that has a
warning before the mirror line and the mirror written `/mirror/`: the install
call is made, with the three Classic flags, `--production false` and
`--offline`. -/
theorem Execute_install_follows_rule_table_witness :
    ruleTableInstall classicWorld "/workspace"
        (isYarnBerry sampleLib classicWorld "/workspace") false true =
        { Args := ["install", "--ignore-engines", "--frozen-lockfile", "--production", "false",
            "--offline"],
          Env := ["PATH=/usr/bin", "PATH=/usr/bin:node_modules/.bin"],
          Dir := "/workspace" } ∧
      Event.exec (ruleTableInstall classicWorld "/workspace"
          (isYarnBerry sampleLib classicWorld "/workspace") false true) ∈
        (Execute sampleLib sampleProcess classicWorld "/workspace" "/layers/new" false).events :=
  have hq : IsQueriedMirror mirrorOutput "/mirror/" :=
    ⟨["warning no network"], "  /mirror/ ", [""], by decide, by decide, by decide, by decide⟩
  ⟨by decide,
    (Execute_install_follows_rule_table sampleLib sampleProcess classicWorld "/workspace"
      "/layers/new" false true
      ⟨fun _ => Or.inr ⟨by decide, "/mirror/", hq, by decide⟩, fun _ => rfl⟩).2
      (by decide)
      (by
        rintro (⟨hb, -⟩ | ⟨-, dir, errno, hd, hs⟩)
        · exact absurd hb (by decide)
        · have h1 := offlineMirrorDir_of_queried _ _ hd
          have h2 : offlineMirrorDir mirrorOutput = "/mirror/" := by decide
          have h3 : dir = "/mirror/" := h1.symm.trans h2
          subst h3
          have h4 : Stat (sampleProcess.executable (mirrorQuery classicWorld "/workspace")
              classicWorld).world "/mirror/" = .ok .dir := by decide
          rw [h4] at hs
          cases hs)⟩

/-- C6, as amended: called with the empty current layer path, `SetupModules`
never leaves a symlink at `<workingDir>/node_modules`: for every initial
file system, whenever it returns without error, the path is a directory and
the result is the next layer path. -/
theorem SetupModules_fresh_leaves_directory (w w2 : World)
    (workingDir nextModulesLayerPath staged : String)
    (h : SetupModules w workingDir "" nextModulesLayerPath = (.ok staged, w2)) :
    Lstat w2 (Join [workingDir, "node_modules"]) = .ok .dir ∧
      staged = nextModulesLayerPath := by
  unfold SetupModules at h
  simp only [ne_eq, not_true_eq_false, if_false] at h
  have key : ∀ w1 : World,
      (∀ t, Lstat w1 (Join [workingDir, "node_modules"]) ≠ .ok (.symlink t)) →
      (match MkdirAll w1 (Join [workingDir, "node_modules"]) with
        | .error e => ((.error ("failed to create node_modules directory: " ++ e.text) :
            Except String String), w1)
        | .ok w2 => (.ok nextModulesLayerPath, w2)) = (.ok staged, w2) →
      Lstat w2 (Join [workingDir, "node_modules"]) = .ok .dir ∧
        staged = nextModulesLayerPath := by
    intro w1 hplain hm
    cases hmk : MkdirAll w1 (Join [workingDir, "node_modules"]) with
    | error e => simp [hmk] at hm
    | ok w3 =>
      simp [hmk] at hm
      obtain ⟨h1, h2⟩ := hm
      subst h2
      exact ⟨MkdirAllAux_Lstat _ w1 w3 _ hmk hplain, h1.symm⟩
  cases hl : Lstat w (Join [workingDir, "node_modules"]) with
  | error e =>
    cases e with
    | other errno => simp [hl] at h
    | notExist =>
      simp only [hl, Except.toOption] at h
      apply key w _ h
      intro t ht
      rw [hl] at ht
      cases ht
  | ok n =>
    simp only [hl, Except.toOption] at h
    cases n with
    | symlink t =>
      simp only [Node.isSymlink, if_true] at h
      cases hr : RemoveAll w (Join [workingDir, "node_modules"]) with
      | error e => simp [hr] at h
      | ok w1 =>
        simp only [hr] at h
        apply key w1 _ h
        intro t2 ht
        rw [RemoveAll_symlink w w1 _ t hl hr] at ht
        cases ht
    | file c =>
      simp only [Node.isSymlink] at h
      apply key w _ h
      intro t ht
      rw [hl] at ht
      cases ht
    | dir =>
      simp only [Node.isSymlink] at h
      apply key w _ h
      intro t ht
      rw [hl] at ht
      cases ht

/-- The Classic project with a stale symlink, staged without a current layer:
the symlink is gone and a directory is there. -/
theorem SetupModules_fresh_leaves_directory_witness :
    Lstat (SetupModules classicWorld "/workspace" "" "/layers/new").2
        (Join ["/workspace", "node_modules"]) = .ok .dir ∧
      "/layers/new" = "/layers/new" :=
  SetupModules_fresh_leaves_directory classicWorld
    (SetupModules classicWorld "/workspace" "" "/layers/new").2 "/workspace" "/layers/new"
    "/layers/new" (by rfl)

/-- C6, the claim as written fails: the next layer `/layers/new` is there and
empty, a current layer path is supplied, `SetupModules` copies
`/layers/old/node_modules` into the next layer and returns without error, and
the stale symlink at `/workspace/node_modules` is still a symlink. -/
theorem SetupModules_copy_keeps_symlink :
    Lstat classicWorld "/layers/new" = .ok .dir ∧
      Lstat classicWorld "/layers/new/node_modules" = .error .notExist ∧
      (SetupModules classicWorld "/workspace" "/layers/old" "/layers/new").1 =
        .ok "/layers/new" ∧
      ReadFile (SetupModules classicWorld "/workspace" "/layers/old" "/layers/new").2
        "/layers/new/node_modules/left-pad.js" = .ok "module.exports = 1" ∧
      Lstat (SetupModules classicWorld "/workspace" "/layers/old" "/layers/new").2
        (Join ["/workspace", "node_modules"]) = .ok (.symlink "/layers/old/node_modules") := by
  decide

/-- C7: in the yarn-version resolution of `Detect`, `engines.yarn` wins over
the pin.  When the project has a `yarn.lock`, its manifest is parsed by
`libnodejs` and decodes into the struct of `Detect`, and the decoded
`engines` map has a non-empty entry `v` for `yarn`, then for every value of
`packageManager` the yarn requirement carries version `v` with version-source
`package.json#engines.yarn`. -/
theorem Detect_engines_yarn_wins (names : PlanNames) (node : NodeLib) (lib : JsonLib)
    (w : World) (workingDir projectPath data v : String) (pkg : PackageJSON) (raw : RawStruct)
    (hpath : node.FindProjectPath w workingDir = .ok projectPath)
    (hlock : Exists w (Join [projectPath, "yarn.lock"]) = .ok true)
    (hpkg : node.ParsePackageJSON w projectPath = .ok pkg)
    (hread : ReadFile w (Join [projectPath, "package.json"]) = .ok data)
    (hraw : UnmarshalRaw lib data = some raw)
    (hyarn : mapIndex raw.Engines "yarn" = (v, true)) (hv : v ≠ "") :
    ∃ nodeRequirement,
      Detect names node lib w workingDir =
        .ok { Plan := { Provides := [{ Name := names.PlanDependencyNodeModules }],
                        Requires := [nodeRequirement,
                          { Name := names.PlanDependencyYarn,
                            Metadata := { Version := v,
                                          VersionSource := "package.json#engines.yarn",
                                          Build := true } }] } } := by
  have hne : raw.Engines ≠ none := by
    intro h
    rw [h] at hyarn
    simp [mapIndex] at hyarn
  unfold Detect
  simp only [hpath, hlock, hpkg, hread, hraw, hyarn]
  simp [hne, hv]

/-- The manifest with `engines.yarn` `1.22.0` and the pin `yarn@1.22.0`. -/
theorem Detect_engines_yarn_wins_witness :
    ∃ nodeRequirement,
      Detect sampleNames sampleNodeLib sampleLib enginesWorld "/workspace" =
        .ok { Plan := { Provides := [{ Name := sampleNames.PlanDependencyNodeModules }],
                        Requires := [nodeRequirement,
                          { Name := sampleNames.PlanDependencyYarn,
                            Metadata := { Version := "1.22.0",
                                          VersionSource := "package.json#engines.yarn",
                                          Build := true } }] } } :=
  Detect_engines_yarn_wins sampleNames sampleNodeLib sampleLib enginesWorld "/workspace"
    "/workspace" manifestBoth "1.22.0" { Version := "" }
    { Engines := some [("yarn", "1.22.0")], PackageManager := "yarn@1.22.0" }
    (by rfl) (by decide) (by rfl) (by decide) (by decide) (by decide) (by decide)

/-- C8: in the yarn-version resolution of `Detect`, the pin is the fallback
and is taken verbatim.  When the project has a `yarn.lock`, its manifest is
parsed by `libnodejs` and decodes into the struct of `Detect`, the decoded
`engines` map has no non-empty entry for `yarn`, and `packageManager` is
`yarn@` followed by a non-empty `v`, then the yarn requirement carries
version `v`, all that follows the `@`, with version-source
`package.json#packageManager`, and `isYarnBerry` classifies the project as
Berry. -/
theorem Detect_pin_verbatim (names : PlanNames) (node : NodeLib) (lib : JsonLib)
    (w : World) (workingDir projectPath data v : String) (pkg : PackageJSON) (raw : RawStruct)
    (hpath : node.FindProjectPath w workingDir = .ok projectPath)
    (hlock : Exists w (Join [projectPath, "yarn.lock"]) = .ok true)
    (hpkg : node.ParsePackageJSON w projectPath = .ok pkg)
    (hread : ReadFile w (Join [projectPath, "package.json"]) = .ok data)
    (hraw : UnmarshalRaw lib data = some raw)
    (hyarn : (mapIndex raw.Engines "yarn").1 = "")
    (hpin : raw.PackageManager = "yarn@" ++ v) (hv : v ≠ "") :
    (∃ nodeRequirement,
      Detect names node lib w workingDir =
        .ok { Plan := { Provides := [{ Name := names.PlanDependencyNodeModules }],
                        Requires := [nodeRequirement,
                          { Name := names.PlanDependencyYarn,
                            Metadata := { Version := v,
                                          VersionSource := "package.json#packageManager",
                                          Build := true } }] } }) ∧
      isYarnBerry lib w projectPath = true := by
  constructor
  · have hlen : len "yarn@" = 5 := by decide
    have hl : len raw.PackageManager > 5 := by
      rw [hpin, len_append, hlen]
      have := len_pos_of_ne_empty v hv
      omega
    have hto : sliceTo raw.PackageManager 5 = "yarn@" := by
      rw [hpin]; exact sliceTo_append "yarn@" v
    have hfrom : sliceFrom raw.PackageManager 5 = v := by
      rw [hpin]; exact sliceFrom_append "yarn@" v
    have hl0 : len raw.PackageManager > 0 := by omega
    unfold Detect
    simp only [hpath, hlock, hpkg, hread, hraw]
    rcases hm : mapIndex raw.Engines "yarn" with ⟨v1, ok1⟩
    rw [hm] at hyarn
    simp at hyarn
    subst hyarn
    simp [hlen, hl, hto, hfrom, hl0, hv]
  · rw [isYarnBerry_eq_true_iff]
    right; right
    refine ⟨data, _, hread, UnmarshalPin_of_UnmarshalRaw lib data raw hraw, ?_⟩
    simp only [hpin]
    exact HasPrefix_append "yarn@" v

/-- The manifest with the pin `yarn@4.2.2` and no `engines`. -/
theorem Detect_pin_verbatim_witness :
    (∃ nodeRequirement,
      Detect sampleNames sampleNodeLib sampleLib pinWorld "/workspace" =
        .ok { Plan := { Provides := [{ Name := sampleNames.PlanDependencyNodeModules }],
                        Requires := [nodeRequirement,
                          { Name := sampleNames.PlanDependencyYarn,
                            Metadata := { Version := "4.2.2",
                                          VersionSource := "package.json#packageManager",
                                          Build := true } }] } }) ∧
      isYarnBerry sampleLib pinWorld "/workspace" = true :=
  Detect_pin_verbatim sampleNames sampleNodeLib sampleLib pinWorld "/workspace"
    "/workspace" manifestPin "4.2.2" { Version := "" }
    { Engines := none, PackageManager := "yarn@4.2.2" }
    (by rfl) (by decide) (by rfl) (by decide) (by decide) (by decide) (by decide) (by decide)


/-- C9, as amended: `ShouldRun` closes its temporary snapshot file on every
exit path and does not remove it.  For every call that made the temporary
file, whether it then returns normally or with an error from writing or from
the summer, the file is still in the file system when `ShouldRun` is done,
and the open handles are those there were before the file was made. -/
theorem ShouldRun_temp_file_closed_not_removed (lib : JsonLib) (ip : YarnInstallProcess)
    (w : World) (workingDir name : String) (metadata : String → Option MetaValue)
    (h : Event.temp name ∈ (ShouldRun lib ip w workingDir metadata).events) :
    (∃ c, Lstat (ShouldRun lib ip w workingDir metadata).world name = .ok (.file c)) ∧
      (ShouldRun lib ip w workingDir metadata).world.handles =
        (configSnapshot lib ip w workingDir).world.handles :=
  ShouldRun_temp_kept lib ip w workingDir name metadata h

/-- The Berry project: the temporary file is there after the call, no handle
is open. -/
theorem ShouldRun_temp_file_closed_not_removed_witness :
    (∃ c, Lstat (ShouldRun sampleLib sampleProcess berryWorld "/workspace" (metadataOf [])).world
        "/tmp/config-file123" = .ok (.file c)) ∧
      (ShouldRun sampleLib sampleProcess berryWorld "/workspace" (metadataOf [])).world.handles =
        (configSnapshot sampleLib sampleProcess berryWorld "/workspace").world.handles :=
  ShouldRun_temp_file_closed_not_removed sampleLib sampleProcess berryWorld "/workspace"
    "/tmp/config-file123" (metadataOf []) (by decide)

/-- C9, the claim as written fails: `ShouldRun` returns normally, with a run
and a fingerprint, and its temporary file `/tmp/config-file123` is still in
the file system, holding the snapshot. -/
theorem ShouldRun_leaves_temp_file :
    (ShouldRun sampleLib sampleProcess berryWorld "/workspace" (metadataOf [])).result =
        .returned ⟨true, "lock\x7b\x7dnodeLinker: pnp\ntest", none⟩ ∧
      Event.temp "/tmp/config-file123" ∈
        (ShouldRun sampleLib sampleProcess berryWorld "/workspace" (metadataOf [])).events ∧
      Lstat (ShouldRun sampleLib sampleProcess berryWorld "/workspace" (metadataOf [])).world
        "/tmp/config-file123" = .ok (.file "nodeLinker: pnp\ntest") := by
  decide

/-- C10, as amended: the environment `Execute` gives to every call of the
tool holds every ambient entry, in order, and right after them one `PATH`
entry: the ambient value of `PATH` first, then the path-list separator, then
`node_modules/.bin` as the last component.  The project-local directory is
appended, so what is found through the ambient `PATH` takes precedence.
Nothing follows but `NODE_ENV=development` for Berry outside the launch
phase. -/
theorem Execute_environment_appends_local_bin (lib : JsonLib) (ip : YarnInstallProcess)
    (w : World) (workingDir modulesLayerPath : String) (launch : Bool) (e : Execution)
    (h : Event.exec e ∈ (Execute lib ip w workingDir modulesLayerPath launch).events) :
    (∀ entry ∈ Environ w, entry ∈ e.Env) ∧
      ∃ rest, e.Env = Environ w ++ ("PATH=" ++ Getenv w "PATH" ++ ":" ++ "node_modules/.bin") :: rest ∧
        (rest = [] ∨ rest = ["NODE_ENV=development"]) := by
  have hbase : baseEnvironment w =
      Environ w ++ ["PATH=" ++ Getenv w "PATH" ++ ":" ++ "node_modules/.bin"] := rfl
  have hshape : ∃ rest, e.Env =
      Environ w ++ ("PATH=" ++ Getenv w "PATH" ++ ":" ++ "node_modules/.bin") :: rest ∧
        (rest = [] ∨ rest = ["NODE_ENV=development"]) := by
    rcases (Execute_events lib ip w workingDir modulesLayerPath launch).1 e h with ⟨-, hq⟩ | hi
    · refine ⟨[], ?_, Or.inl rfl⟩
      rw [hq]
      simp [mirrorQuery, hbase]
    · rw [hi]
      simp only [ruleTableInstall, ruleTableEnv, hbase]
      split
      · exact ⟨["NODE_ENV=development"], by simp, Or.inr rfl⟩
      · exact ⟨[], by simp, Or.inl rfl⟩
  refine ⟨?_, hshape⟩
  obtain ⟨rest, hrest, -⟩ := hshape
  intro entry hentry
  rw [hrest]
  exact List.mem_append_left _ hentry

/-- The Berry project in the launch phase, with `PATH=/usr/bin`. -/
theorem Execute_environment_appends_local_bin_witness :
    (∀ entry ∈ Environ berryWorld, entry ∈ ["NODE_ENV=test", "PATH=/usr/bin",
        "PATH=/usr/bin:node_modules/.bin"]) ∧
      ∃ rest, ["NODE_ENV=test", "PATH=/usr/bin", "PATH=/usr/bin:node_modules/.bin"] =
        Environ berryWorld ++
          ("PATH=" ++ Getenv berryWorld "PATH" ++ ":" ++ "node_modules/.bin") :: rest ∧
        (rest = [] ∨ rest = ["NODE_ENV=development"]) :=
  Execute_environment_appends_local_bin sampleLib sampleProcess berryWorld "/workspace"
    "/layers/new" true
    { Args := ["install", "--immutable"],
      Env := ["NODE_ENV=test", "PATH=/usr/bin", "PATH=/usr/bin:node_modules/.bin"],
      Dir := "/workspace" }
    (by decide)

/-- C10, the claim as written fails: with `PATH=/usr/bin` the install call gets
the entry `PATH=/usr/bin:node_modules/.bin`, whose first component is
`/usr/bin`; no entry with `node_modules/.bin` first is in the environment. -/
theorem Execute_path_entry_not_prepended :
    (Execute sampleLib sampleProcess berryWorld "/workspace" "/layers/new" true).events.head? =
        some (.exec { Args := ["install", "--immutable"],
                      Env := ["NODE_ENV=test", "PATH=/usr/bin",
                        "PATH=/usr/bin:node_modules/.bin"],
                      Dir := "/workspace" }) ∧
      "PATH=node_modules/.bin:/usr/bin" ∉
        ["NODE_ENV=test", "PATH=/usr/bin", "PATH=/usr/bin:node_modules/.bin"] := by
  decide

end YarnInstall
